import Mathlib

set_option maxRecDepth 100000

/-!
Shallow embedding of the healthcare-ai-platform core, translated from the
Python sources:

  * `llm/safety_guard.py`   — rule-based safety guard (regex engine, PHI masking)
  * `rag/vector_store.py`   — in-memory vector store
  * `agents/retrieval_agent.py` — retrieval agent
  * `agents/intake_agent.py`    — intake validation
  * `agents/pipeline.py`        — pipeline orchestrator

Modelling conventions:
  * Python `str` values are embedded as `String` / `List Char`; the regex
    subset used by the guard is embedded by an executable backtracking
    matcher (`mtch`) whose result list is ordered exactly like Python's
    leftmost-first backtracking exploration. `\w`, `\s` and case folding
    follow their ASCII meaning.
  * Python floats are embedded as `ℚ`; the square root used by
    `cosine_similarity` is an abstract parameter (floating point square
    roots are not shallow-embeddable); the only fact the code relies on is
    that `sqrt x = 0` exactly on zero-norm inputs.
  * Exceptions are embedded as `Except`; dict lookups as `Option` fields.
-/

namespace Healthcare

/-! ## Character helpers (ASCII model of Python's `\w`, `\s`, case folding) -/

/-- Python `\w` (ASCII part): letters, digits, underscore. -/
def wordChar (c : Char) : Bool := c.isAlphanum || c == '_'

/-- Python `\s` (ASCII part). -/
def wsChar (c : Char) : Bool :=
  c == ' ' || c == '\t' || c == '\n' || c == '\r' || c == '\x0b' || c == '\x0c'

/-! ## Character classes -/

/-- Character classes appearing in the guard's regex patterns. -/
inductive CC where
  | lit (c : Char)            -- case-sensitive literal
  | litCI (c : Char)          -- literal under re.IGNORECASE
  | digit                     -- \d
  | ws                        -- \s
  | dot                       -- .  (any char except newline)
  | cls (cs : List Char)      -- case-sensitive class like [a-z]
  | clsCI (cs : List Char)    -- class under re.IGNORECASE (stored uppercased)
  deriving Repr, DecidableEq

def ccSat : CC → Char → Bool
  | .lit a, c => c == a
  | .litCI a, c => c.toLower == a.toLower
  | .digit, c => c.isDigit
  | .ws, c => wsChar c
  | .dot, c => c != '\n'
  | .cls cs, c => cs.contains c
  | .clsCI cs, c => cs.contains c.toUpper

/-! ## Regular expressions (the subset used by `safety_guard.py`) -/

/-- Regex abstract syntax. `rep cc lo hi` is a greedy class repetition
`cc{lo,hi}` (`hi = none` meaning unbounded); `grpPlus r` is a greedy
one-or-more group `(?:r)+`. -/
inductive RE where
  | eps
  | ch (cc : CC)
  | cat (a b : RE)
  | alt (a b : RE)
  | bound                       -- \b
  | rep (cc : CC) (lo : Nat) (hi : Option Nat)
  | grpPlus (r : RE)
  deriving Repr, DecidableEq

/-- `r?` (greedy: try the body first, like Python). -/
def RE.opt (r : RE) : RE := .alt r .eps

/-- Word boundary test between the previous character and the rest. -/
def isBoundary (p : Option Char) (s : List Char) : Bool :=
  let wl := match p with | some c => wordChar c | none => false
  let wr := match s with | c :: _ => wordChar c | [] => false
  wl != wr

/-- The previous-character context after consuming `m`. -/
def prevAfter (p : Option Char) (m : List Char) : Option Char :=
  match m.getLast? with
  | some c => some c
  | none => p

/-- Length of the maximal run of characters satisfying `cc`. -/
def runLen (cc : CC) : List Char → Nat
  | [] => 0
  | c :: rest => if ccSat cc c then runLen cc rest + 1 else 0

/-- `[top, top-1, ..., lo]` (empty when `top < lo`). -/
def descRange (lo top : Nat) : List Nat :=
  if top < lo then [] else (List.range (top - lo + 1)).map (fun i => top - i)

/-- All ways a greedy class repetition can split `s`, longest first
(exactly the backtracking order of Python's `cc{lo,hi}`). -/
def repSplits (cc : CC) (lo : Nat) (hi : Option Nat) (s : List Char) :
    List (List Char × List Char) :=
  let n := runLen cc s
  let top := match hi with | some h => min h n | none => n
  (descRange lo top).map (fun k => (s.take k, s.drop k))

/-- Greedy one-or-more loop over a matching function `f`, fuelled.
Options are ordered longest-continuation-first, like Python's `(?:...)+`. -/
def plusLoop (f : Option Char → List Char → List (List Char × List Char)) :
    Nat → Option Char → List Char → List (List Char × List Char)
  | 0, _, _ => []
  | fuel + 1, p, s =>
    (f p s).flatMap (fun mr =>
      if mr.1.isEmpty then [([], s)]
      else
        ((plusLoop f fuel (prevAfter p mr.1) mr.2).map
          (fun nq => (mr.1 ++ nq.1, nq.2))) ++ [mr])

/-- The backtracking matcher. Given the previous character `p` and input
`s`, returns every `(consumed, remaining)` split in exactly Python's
backtracking priority order; the head of the list is the match Python
reports. -/
def mtch : RE → Option Char → List Char → List (List Char × List Char)
  | .eps, _, s => [([], s)]
  | .ch _, _, [] => []
  | .ch cc, _, c :: rest => if ccSat cc c then [([c], rest)] else []
  | .cat a b, p, s =>
    (mtch a p s).flatMap (fun mr =>
      (mtch b (prevAfter p mr.1) mr.2).map (fun nq => (mr.1 ++ nq.1, nq.2)))
  | .alt a b, p, s => mtch a p s ++ mtch b p s
  | .bound, p, s => if isBoundary p s then [([], s)] else []
  | .rep cc lo hi, _, s => repSplits cc lo hi s
  | .grpPlus r, p, s => plusLoop (mtch r) (s.length + 1) p s

/-- `re.search` as a Bool: try a match at every position, left to right. -/
def searchAux (re : RE) : Nat → Option Char → List Char → Bool
  | 0, _, _ => false
  | fuel + 1, p, s =>
    if (mtch re p s).isEmpty then
      match s with
      | [] => false
      | c :: rest => searchAux re fuel (some c) rest
    else true

def reSearch (re : RE) (s : List Char) : Bool := searchAux re (s.length + 1) none s

/-- `re.sub(pattern, rp, ·)`: scan left to right, replacing each
non-overlapping match (the head of the backtracking list) by `rp`.
`fuel 0` is never reached when called through `reSub`. -/
def subScan (re : RE) (rp : List Char) : Nat → Option Char → List Char → List Char
  | 0, _, s => s
  | fuel + 1, p, s =>
    match s with
    | [] => []
    | c :: rest =>
      match (mtch re p s).head? with
      | some mr =>
        if mr.1.isEmpty then c :: subScan re rp fuel (some c) rest
        else rp ++ subScan re rp fuel (prevAfter p mr.1) mr.2
      | none => c :: subScan re rp fuel (some c) rest

def reSub (re : RE) (rp : List Char) (s : List Char) : List Char :=
  subScan re rp (s.length + 1) none s

/-- `re.finditer`: the list of matched substrings, non-overlapping,
left to right. -/
def findScan (re : RE) : Nat → Option Char → List Char → List (List Char)
  | 0, _, _ => []
  | fuel + 1, p, s =>
    match s with
    | [] => []
    | c :: rest =>
      match (mtch re p s).head? with
      | some mr =>
        if mr.1.isEmpty then findScan re fuel (some c) rest
        else mr.1 :: findScan re fuel (prevAfter p mr.1) mr.2
      | none => findScan re fuel (some c) rest

def reFindAll (re : RE) (s : List Char) : List (List Char) :=
  findScan re (s.length + 1) none s

/-! ## Substring utilities (Python `in`, `count`-style occurrence count,
`str.strip` / `str.rstrip`) -/

/-- Python's `needle in hay` on strings (substring containment). -/
def listContains (needle : List Char) : List Char → Bool
  | [] => needle.isEmpty
  | c :: t => needle.isPrefixOf (c :: t) || listContains needle t

/-- Number of (possibly overlapping) occurrence positions of `needle`. -/
def countOcc (needle : List Char) : List Char → Nat
  | [] => 0
  | c :: t => (if needle.isPrefixOf (c :: t) then 1 else 0) + countOcc needle t

/-- Python `str.rstrip()` (ASCII whitespace model). -/
def rstripL (s : List Char) : List Char := (s.reverse.dropWhile wsChar).reverse

/-- Python `str.strip()` (ASCII whitespace model). -/
def stripL (s : List Char) : List Char := rstripL (s.dropWhile wsChar)

/-- Over-approximation of the characters a pattern can consume: every
character of every match satisfies `reCharOK re`. -/
def reCharOK : RE → Char → Bool
  | .eps, _ => false
  | .ch cc, c => ccSat cc c
  | .cat a b, c => reCharOK a c || reCharOK b c
  | .alt a b, c => reCharOK a c || reCharOK b c
  | .bound, _ => false
  | .rep cc _ _, c => ccSat cc c
  | .grpPlus r, c => reCharOK r c

/-- Syntactic nullability: when `false`, every match consumes at least one
character. -/
def nullable : RE → Bool
  | .eps => true
  | .ch _ => false
  | .cat a b => nullable a && nullable b
  | .alt a b => nullable a || nullable b
  | .bound => true
  | .rep _ lo _ => lo == 0
  | .grpPlus r => nullable r

/-- The interior characters of the `[PHI_SSN]` placeholder. -/
def interiorChars : List Char := "PHI_SSN".toList

/-- `cc` matches no interior character of the placeholder. -/
def ccAvoids (cc : CC) : Bool := interiorChars.all (fun c => !ccSat cc c)

/-- When `true`, every match of the pattern consumes at least one
character outside the placeholder interior. -/
def mustOut : RE → Bool
  | .eps => false
  | .ch cc => ccAvoids cc
  | .cat a b => mustOut a || mustOut b
  | .alt a b => mustOut a && mustOut b
  | .bound => false
  | .rep cc lo _ => decide (1 ≤ lo) && ccAvoids cc
  | .grpPlus r => mustOut r

/-- The `[PHI_SSN]` placeholder occurs in `s`, with its surroundings made
explicit so that survival through later substitution passes can be tracked. -/
def hasPH (s : List Char) : Prop :=
  ∃ a b, s = a ++ '[' :: 'P' :: 'H' :: 'I' :: '_' :: 'S' :: 'S' :: 'N' :: ']' :: b

/-! ## The concrete patterns of `safety_guard.py` -/

/-- A literal string under `re.IGNORECASE`. -/
def strCI (w : String) : RE := (w.toList.map (fun c => RE.ch (CC.litCI c))).foldr RE.cat RE.eps

/-- `\bw\b` for a literal word/phrase `w` under `re.IGNORECASE`. -/
def bWord (w : String) : RE := .cat .bound (.cat (strCI w) .bound)

def uppersL : List Char := "ABCDEFGHIJKLMNOPQRSTUVWXYZ".toList
def lowersL : List Char := "abcdefghijklmnopqrstuvwxyz".toList
def digitsL : List Char := "0123456789".toList
def wsCharsL : List Char := [' ', '\t', '\n', '\r', '\x0b', '\x0c']

/-- `[-.\s]` -/
def sepCC : CC := .cls ('-' :: '.' :: wsCharsL)

/-- `\b\d{3}-\d{2}-\d{4}\b` -/
def ssnRE : RE :=
  .cat .bound (.cat (.rep .digit 3 (some 3)) (.cat (.ch (.lit '-'))
    (.cat (.rep .digit 2 (some 2)) (.cat (.ch (.lit '-'))
      (.cat (.rep .digit 4 (some 4)) .bound)))))

/-- `\b[A-Z0-9._%+-]+@[A-Z0-9.-]+\.[A-Z]{2,}\b` under `re.IGNORECASE` -/
def emailRE : RE :=
  .cat .bound (.cat (.rep (.clsCI (uppersL ++ digitsL ++ "._%+-".toList)) 1 none)
    (.cat (.ch (.lit '@')) (.cat (.rep (.clsCI (uppersL ++ digitsL ++ ".-".toList)) 1 none)
      (.cat (.ch (.lit '.')) (.cat (.rep (.clsCI uppersL) 2 none) .bound)))))

/-- `\b(?:\+?\d{1,3}[-.\s]?)?(?:\(?\d{2,4}\)?[-.\s]?)?\d{3,4}[-.\s]?\d{4}\b` -/
def phoneRE : RE :=
  .cat .bound (.cat
    (RE.opt (.cat (RE.opt (.ch (.lit '+'))) (.cat (.rep .digit 1 (some 3)) (RE.opt (.ch sepCC)))))
    (.cat
      (RE.opt (.cat (RE.opt (.ch (.lit '('))) (.cat (.rep .digit 2 (some 4))
        (.cat (RE.opt (.ch (.lit ')'))) (RE.opt (.ch sepCC))))))
      (.cat (.rep .digit 3 (some 4)) (.cat (RE.opt (.ch sepCC))
        (.cat (.rep .digit 4 (some 4)) .bound)))))

/-- `\b\d{4}-\d{2}-\d{2}\b` -/
def date1RE : RE :=
  .cat .bound (.cat (.rep .digit 4 (some 4)) (.cat (.ch (.lit '-'))
    (.cat (.rep .digit 2 (some 2)) (.cat (.ch (.lit '-'))
      (.cat (.rep .digit 2 (some 2)) .bound)))))

/-- `\b\d{1,2}/\d{1,2}/\d{2,4}\b` -/
def date2RE : RE :=
  .cat .bound (.cat (.rep .digit 1 (some 2)) (.cat (.ch (.lit '/'))
    (.cat (.rep .digit 1 (some 2)) (.cat (.ch (.lit '/'))
      (.cat (.rep .digit 2 (some 4)) .bound)))))

/-- `\b\d{5}(?:-\d{4})?\b` -/
def zipRE : RE :=
  .cat .bound (.cat (.rep .digit 5 (some 5))
    (.cat (RE.opt (.cat (.ch (.lit '-')) (.rep .digit 4 (some 4)))) .bound))

/-- `\b(?:MRN|ID|Patient\s*ID|Record\s*ID)\s*[:#]?\s*[A-Z0-9-]{4,}\b` under `re.IGNORECASE` -/
def idRE : RE :=
  .cat .bound (.cat
    (.alt (strCI "MRN") (.alt (strCI "ID")
      (.alt (.cat (strCI "Patient") (.cat (.rep .ws 0 none) (strCI "ID")))
        (.cat (strCI "Record") (.cat (.rep .ws 0 none) (strCI "ID"))))))
    (.cat (.rep .ws 0 none) (.cat (RE.opt (.ch (.cls [':', '#'])))
      (.cat (.rep .ws 0 none) (.cat (.rep (.clsCI (uppersL ++ digitsL ++ ['-'])) 4 none) .bound)))))

/-- `\b[A-Z][a-z]+(?:\s[A-Z][a-z]+)+\b` (case-sensitive: the `PHI_NAME`
pattern is applied without `re.IGNORECASE` in `_mask_phi`). -/
def nameRE : RE :=
  .cat .bound (.cat (.ch (.cls uppersL)) (.cat (.rep (.cls lowersL) 1 none)
    (.cat (.grpPlus (.cat (.ch .ws) (.cat (.ch (.cls uppersL)) (.rep (.cls lowersL) 1 none))))
      .bound)))

/-- `DIAGNOSIS_PATTERNS` with their source strings as tags. -/
def DIAGNOSIS_PATTERNS : List (String × RE) :=
  [("\\bdiagnos(?:e|is)\\b",
      .cat .bound (.cat (strCI "diagnos") (.cat (.alt (strCI "e") (strCI "is")) .bound))),
   ("\\byou have\\b", bWord "you have"),
   ("\\bits likely you\\b", bWord "its likely you"),
   ("\\byou are suffering from\\b", bWord "you are suffering from"),
   ("\\bconfirmed\\b", bWord "confirmed"),
   ("\\bclinically\\b", bWord "clinically")]

/-- `PRESCRIPTION_PATTERNS` with their source strings as tags. -/
def PRESCRIPTION_PATTERNS : List (String × RE) :=
  [("\\bprescrib(?:e|ed|ing)\\b",
      .cat .bound (.cat (strCI "prescrib")
        (.cat (.alt (strCI "e") (.alt (strCI "ed") (strCI "ing"))) .bound))),
   ("\\btake\\s+\\d+\\s*(?:mg|g|mcg|ml)\\b",
      .cat .bound (.cat (strCI "take") (.cat (.rep .ws 1 none) (.cat (.rep .digit 1 none)
        (.cat (.rep .ws 0 none) (.cat (.alt (strCI "mg") (.alt (strCI "g")
          (.alt (strCI "mcg") (strCI "ml")))) .bound)))))),
   ("\\bstart\\s+(?:taking|using)\\b.*\\b(medication|drug|antibiotic)\\b",
      .cat .bound (.cat (strCI "start") (.cat (.rep .ws 1 none)
        (.cat (.alt (strCI "taking") (strCI "using")) (.cat .bound (.cat (.rep .dot 0 none)
          (.cat .bound (.cat (.alt (strCI "medication") (.alt (strCI "drug")
            (strCI "antibiotic"))) .bound)))))))),
   ("\\bstop\\s+(?:taking|using)\\b.*\\b(medication|drug|antidepressant|insulin)\\b",
      .cat .bound (.cat (strCI "stop") (.cat (.rep .ws 1 none)
        (.cat (.alt (strCI "taking") (strCI "using")) (.cat .bound (.cat (.rep .dot 0 none)
          (.cat .bound (.cat (.alt (strCI "medication") (.alt (strCI "drug")
            (.alt (strCI "antidepressant") (strCI "insulin")))) .bound))))))))]

/-- `EMERGENCY_PATTERNS` with their source strings as tags. -/
def EMERGENCY_PATTERNS : List (String × RE) :=
  [("\\bchest pain\\b", bWord "chest pain"),
   ("\\btrouble breathing\\b", bWord "trouble breathing"),
   ("\\bshortness of breath\\b", bWord "shortness of breath"),
   ("\\bfaint(?:ed|ing)?\\b",
      .cat .bound (.cat (strCI "faint")
        (.cat (RE.opt (.alt (strCI "ed") (strCI "ing"))) .bound))),
   ("\\bsevere bleeding\\b", bWord "severe bleeding"),
   ("\\bstroke\\b", bWord "stroke"),
   ("\\bsuicid(?:al|e)\\b",
      .cat .bound (.cat (strCI "suicid") (.cat (.alt (strCI "al") (strCI "e")) .bound))),
   ("\\bkill myself\\b", bWord "kill myself"),
   ("\\bself harm\\b", bWord "self harm")]

/-- The strong PHI patterns of `PHI_PATTERNS` in source order, with their
type and `PHI_REPLACEMENTS` placeholder (the `PHI_NAME` entry is handled
separately, as in `_mask_phi`). -/
def PHI_PATTERNS_STRONG : List (String × RE × String) :=
  [("PHI_SSN", ssnRE, "[PHI_SSN]"),
   ("PHI_EMAIL", emailRE, "[PHI_EMAIL]"),
   ("PHI_PHONE", phoneRE, "[PHI_PHONE]"),
   ("PHI_DATE", date1RE, "[PHI_DATE]"),
   ("PHI_DATE", date2RE, "[PHI_DATE]"),
   ("PHI_ZIP", zipRE, "[PHI_ZIP]"),
   ("PHI_ID", idRE, "[PHI_ID]")]

def NAME_CONTEXT_HINTS : List String := ["call me", "contact", "reached at", "has", "patient"]

def EMERGENCY_GUIDANCE : String :=
  "If you are experiencing severe or rapidly worsening symptoms, or you might be in danger, please seek urgent medical care immediately. If you are in the U.S., call 911. If you are outside the U.S., contact your local emergency number or a trusted local crisis service."

/-! ## Guard data structures and `guard_text` -/

/-- `GuardReason` (the source's `type` and `match` fields are spelled
`rtype` and `matched`: `match` is a Lean keyword). -/
structure GuardReason where
  rtype : String
  detail : String
  matched : Option String
  deriving Repr, DecidableEq

structure GuardResult where
  allowed : Bool
  masked_text : String
  actions : List String
  reasons : List GuardReason
  severity : String
  deriving Repr, DecidableEq

/-- `_match_any`: the first pattern whose `re.search` succeeds. -/
def matchFirst (ps : List (String × RE)) (s : List Char) : Option (String × RE) :=
  ps.find? (fun pr => reSearch pr.2 s)

/-- `max_severity` (the source indexes a dict `{low:0, medium:1, high:2}`;
it is only ever called on those three strings). -/
def max_severity (a b : String) : String :=
  let order := fun s => if s == "low" then 0 else if s == "medium" then 1 else 2
  if order a ≥ order b then a else b

def phiReasonsOf (ty : String) (ms : List (List Char)) : List GuardReason :=
  ms.map (fun m => ⟨"PHI", ty ++ " detected", some (String.mk m)⟩)

/-- The strong-pattern loop of `_mask_phi`: for each pattern, first record
a reason per `finditer` match on the current text, then substitute. -/
def maskStrong : List (String × RE × String) → List Char × List GuardReason →
    List Char × List GuardReason
  | [], acc => acc
  | (ty, re, rp) :: rest, (masked, reasons) =>
    maskStrong rest
      (reSub re rp.toList masked, reasons ++ phiReasonsOf ty (reFindAll re masked))

/-- `_mask_phi`: strong patterns in order, then the contextual name pass. -/
def mask_phi (text : List Char) : List Char × List GuardReason :=
  let mr := maskStrong PHI_PATTERNS_STRONG (text, [])
  let lower := mr.1.map Char.toLower
  if NAME_CONTEXT_HINTS.any (fun h => listContains h.toList lower) then
    (reSub nameRE "[PHI_NAME]".toList mr.1,
     mr.2 ++ phiReasonsOf "PHI_NAME" (reFindAll nameRE mr.1))
  else mr

/-- `append_guidance` -/
def append_guidance (text guidance : List Char) : List Char :=
  let t := rstripL text
  if listContains guidance t then t else t ++ ('\n' :: '\n' :: guidance)

/-- `guard_text` on a (non-`None`) string. The sequence of rebindings
mirrors the source's sequence of mutations. -/
def guard_text (text : String) : GuardResult :=
  let original := text.toList
  let diag := matchFirst DIAGNOSIS_PATTERNS original
  let presc := matchFirst PRESCRIPTION_PATTERNS original
  let emergency_hit := matchFirst EMERGENCY_PATTERNS original
  let allowed := true
  let actions : List String := []
  let reasons : List GuardReason := []
  let severity := "low"
  let allowed := if diag.isSome then false else allowed
  let actions := if diag.isSome then actions ++ ["block_diagnosis"] else actions
  let reasons := if diag.isSome then
      reasons ++ [⟨"MEDICAL_DIAGNOSIS", "Diagnostic certainty detected", none⟩] else reasons
  let severity := if diag.isSome then "high" else severity
  let allowed := if presc.isSome then false else allowed
  let actions := if presc.isSome then actions ++ ["block_prescription"] else actions
  let reasons := if presc.isSome then
      reasons ++ [⟨"MEDICAL_PRESCRIPTION", "Prescription or dosing detected", none⟩] else reasons
  let severity := if presc.isSome then "high" else severity
  let actions := if emergency_hit.isSome then actions ++ ["add_emergency_guidance"] else actions
  let reasons := if emergency_hit.isSome then
      reasons ++ [⟨"EMERGENCY", "Emergency or crisis signal detected",
                   emergency_hit.map Prod.fst⟩] else reasons
  let severity := if emergency_hit.isSome then "high" else severity
  let mp := mask_phi original
  let actions := if mp.2.isEmpty then actions else actions ++ ["mask_phi"]
  let reasons := if mp.2.isEmpty then reasons else reasons ++ mp.2
  let severity := if mp.2.isEmpty then severity else max_severity severity "medium"
  let masked := if emergency_hit.isSome then
      append_guidance mp.1 EMERGENCY_GUIDANCE.toList else mp.1
  ⟨allowed, String.mk masked, actions, reasons, severity⟩

/-- `guard_text` on a possibly-`None` input (`original = text or ""`). -/
def guard_text_opt (text : Option String) : GuardResult :=
  guard_text (text.getD "")

/-- The SSN shape of claim C8's parenthetical reading: three digits, dash,
two digits, dash, four digits, with no word-boundary requirement (the
code's `ssnRE` additionally anchors both ends with `\b`). -/
def ssnLoose : RE :=
  .cat (.rep .digit 3 (some 3)) (.cat (.ch (.lit '-'))
    (.cat (.rep .digit 2 (some 2)) (.cat (.ch (.lit '-')) (.rep .digit 4 (some 4)))))

/-! ## `rag/vector_store.py`

Floats are embedded as `ℚ`; `math.sqrt` is an abstract parameter `sqrt`
(see the header note). -/

def dotProd (v1 v2 : List ℚ) : ℚ := ((v1.zip v2).map (fun ab => ab.1 * ab.2)).sum

def sumSq (v : List ℚ) : ℚ := (v.map (fun a => a * a)).sum

/-- `cosine_similarity`, with `norm1 = sqrt (Σ a²)`, `norm2 = sqrt (Σ b²)`. -/
def cosine_similarity (sqrt : ℚ → ℚ) (v1 v2 : List ℚ) : ℚ :=
  let dot := dotProd v1 v2
  let norm1 := sqrt (sumSq v1)
  let norm2 := sqrt (sumSq v2)
  if norm1 = 0 ∨ norm2 = 0 then 0 else dot / (norm1 * norm2)

structure VectorStore where
  documents : List String
  embeddings : List (List ℚ)
  deriving Repr, DecidableEq

def VectorStore.count (s : VectorStore) : Nat := s.embeddings.length

def VectorStore.add (s : VectorStore) (text : String) (embedding : List ℚ) : VectorStore :=
  ⟨s.documents ++ [text], s.embeddings ++ [embedding]⟩

/-- `add_batch`: `for text, emb in zip(texts, embeddings): self.add(text, emb)` —
`zip` silently truncates to the shorter list. -/
def VectorStore.add_batch (s : VectorStore) (texts : List String)
    (embs : List (List ℚ)) : VectorStore :=
  (texts.zip embs).foldl (fun st te => st.add te.1 te.2) s

/-- Stable descending insertion by score: a later element is placed after
every earlier element whose score is `≥` its own. -/
def insDesc (x : String × ℚ) : List (String × ℚ) → List (String × ℚ)
  | [] => [x]
  | y :: t => if x.2 ≥ y.2 then x :: y :: t else y :: insDesc x t

/-- Stable descending sort by score. Python's `list.sort(key=x[1],
reverse=True)` is a stable descending sort; any two stable sorts with the
same key agree, so this insertion sort has the same input/output behaviour. -/
def sortDesc : List (String × ℚ) → List (String × ℚ)
  | [] => []
  | x :: t => insDesc x (sortDesc t)

/-- `query`: empty index short-circuits to `[]`; otherwise score every
stored pair, sort stably by descending score, truncate to `top_k`. -/
def VectorStore.query (sqrt : ℚ → ℚ) (s : VectorStore) (query_embedding : List ℚ)
    (top_k : Nat) : List (String × ℚ) :=
  if s.embeddings.isEmpty then []
  else
    let scored := (s.documents.zip s.embeddings).map
      (fun de => (de.1, cosine_similarity sqrt query_embedding de.2))
    (sortDesc scored).take top_k

/-! ## `agents/retrieval_agent.py` -/

/-- One retrieved chunk; `.get` lookups on the retriever's dicts give
`Option` fields. -/
structure RetrievalChunk where
  text : Option String
  source : Option String
  score : Option ℚ
  deriving Repr, DecidableEq

structure RetrievalResult where
  query : String
  chunks : List RetrievalChunk
  k : Nat
  deriving Repr, DecidableEq

/-- The intake dict as consulted by `build_query`'s fallback. -/
structure IntakeDict where
  raw_text : Option String
  text : Option String
  deriving Repr, DecidableEq

/-- The structured record as consulted by `build_query`: a field is `some`
when the key is present with a value of the `isinstance`-checked type. -/
structure StructuredRecord where
  chief_complaint : Option String := none
  symptoms : Option (List String) := none
  context : Option String := none
  duration : Option String := none
  onset : Option String := none
  additional_notes : Option String := none
  deriving Repr, DecidableEq

/-- Python `str.strip()` at the `String` level. -/
def pyStrip (s : String) : String := String.mk (stripL s.toList)

/-- Append `val.strip()` when `val` is a present, non-blank string. -/
def addStripped (parts : List String) (v : Option String) : List String :=
  match v with
  | some s => if pyStrip s ≠ "" then parts ++ [pyStrip s] else parts
  | none => parts

/-- `RetrievalAgent.build_query`. -/
def build_query (structured : StructuredRecord) (intake : Option IntakeDict) : String :=
  let parts : List String := []
  let parts := addStripped parts structured.chief_complaint
  let parts := match structured.symptoms with
    | some ss => parts ++ (ss.filter (fun s => s ≠ "")).map pyStrip
    | none => parts
  let parts := addStripped parts structured.context
  let parts := addStripped parts structured.duration
  let parts := addStripped parts structured.onset
  let parts := addStripped parts structured.additional_notes
  let parts := if parts.isEmpty then
      match intake with
      | some i =>
        let raw := match i.raw_text with
          | some r => if r ≠ "" then some r else i.text
          | none => i.text
        addStripped parts raw
      | none => parts
    else parts
  pyStrip (String.intercalate " " parts)

/-- The retrieval agent; the underlying `Retriever.retrieve` call is a
function returning `Except` (exceptions propagate to the caller). -/
structure RetrievalAgent where
  retriever : String → Nat → Except String (List RetrievalChunk)
  enabled : Bool

/-- `RetrievalAgent.retrieve`, instrumented: the `Bool` records whether the
underlying Retriever was invoked. -/
def RetrievalAgent.retrieve (agent : RetrievalAgent) (structured : StructuredRecord)
    (intake : Option IntakeDict) (top_k : Nat) :
    Except String RetrievalResult × Bool :=
  if !agent.enabled then (.ok ⟨"", [], 0⟩, false)
  else
    let query := build_query structured intake
    if query = "" then (.ok ⟨"", [], top_k⟩, false)
    else
      match agent.retriever query top_k with
      | .error e => (.error e, true)
      | .ok raw => (.ok ⟨query, raw, top_k⟩, true)

/-! ## `agents/intake_agent.py` -/

inductive IntakeError where
  | emptyText       -- "raw_text cannot be empty."
  | tooShort        -- "raw_text is too short to be meaningful."
  | tooLong         -- "raw_text exceeds maximum length (5000 chars)."
  | phiNoConsent    -- "PHI detected but patient consent has not been granted."
  deriving Repr, DecidableEq

def IntakeError.message : IntakeError → String
  | .emptyText => "raw_text cannot be empty."
  | .tooShort => "raw_text is too short to be meaningful."
  | .tooLong => "raw_text exceeds maximum length (5000 chars)."
  | .phiNoConsent => "PHI detected but patient consent has not been granted."

structure HealthInput where
  input_id : String
  user_id : String
  raw_text : String
  source : String
  input_type : String
  timestamp : String
  contains_phi : Bool
  consent_granted : Bool
  deriving Repr, DecidableEq

def phiKeywords : List String :=
  ["name", "dob", "date of birth", "ssn", "id number", "address", "phone", "email", "patient"]

/-- `_detect_phi`. -/
def detect_phi (text : List Char) : Bool :=
  let lowered := text.map Char.toLower
  phiKeywords.any (fun k => listContains k.toList lowered)

/-- `process_raw_input`. The generated UUIDs and timestamp are passed in
as parameters `gen_id`, `gen_uid`, `ts` (they are opaque to the logic).
The final pydantic construction re-checks `10 ≤ len ≤ 5000`, which is
already guaranteed here, so it cannot fail. -/
def process_raw_input (raw_text : String) (source input_type : String)
    (consent_granted : Bool) (user_id : Option String)
    (gen_id gen_uid ts : String) : Except IntakeError HealthInput :=
  let rawL := raw_text.toList
  if rawL.isEmpty || (stripL rawL).isEmpty then .error .emptyText
  else
    let rawL := stripL rawL
    if rawL.length < 10 then .error .tooShort
    else if rawL.length > 5000 then .error .tooLong
    else
      let uid := match user_id with
        | some u => if u = "" then gen_uid else u
        | none => gen_uid
      let contains_phi := detect_phi rawL
      if contains_phi && !consent_granted then .error .phiNoConsent
      else .ok ⟨gen_id, uid, String.mk rawL, source, input_type, ts, contains_phi, consent_granted⟩

/-! ## `agents/pipeline.py`

The pipeline is polymorphic in the structured-record type `σ` and report
type `ρ`; the collaborating agents are functions returning `Except`
(an `error` models the agent raising). -/

structure StageError where
  stage : String
  error_type : String
  message : String
  deriving Repr, DecidableEq

structure RagTrace where
  enabled : Bool
  used : Bool
  query : Option String
  top_k : Nat
  chunks : List RetrievalChunk
  error : Option (String × String)   -- (type(e).__name__, str(e))
  deriving Repr, DecidableEq

structure PipelineTrace (σ ρ : Type) where
  success : Bool
  intake : Option HealthInput
  structured : Option σ
  rag : RagTrace
  report : Option ρ
  safety : Option GuardResult
  errors : List StageError

/-- The retrieval payload as consumed by the pipeline
(`payload.get("query")`, `payload.get("chunks", [])`). -/
structure RetPayload where
  query : Option String
  chunks : List RetrievalChunk

/-- What `output_agent.run` returns: `result.get("report")`,
`result.get("_safety")`. -/
structure OutputResult (ρ : Type) where
  report : Option ρ
  safety : Option GuardResult

/-- The faults `run` can propagate. -/
inductive PipeFault (σ : Type) where
  | intake (e : IntakeError)
  | structuring (etype msg : String)
  | output (etype msg : String)

/-- The meta dict of `run`. -/
structure Meta where
  source : Option String := none
  input_type : Option String := none
  consent_granted : Option Bool := none
  user_id : Option String := none

structure HealthcarePipeline (σ ρ : Type) where
  struct : HealthInput → Except (String × String) σ
  output : σ → List RetrievalChunk → Except (String × String) (OutputResult ρ)
  retrieval : Option (σ → Nat → Except (String × String) RetPayload)
  enable_retrieval : Bool
  persist : String → PipelineTrace σ ρ → Except String Unit

/-- The default safety record installed when the output agent returned no
`_safety` (the source uses `trace["report"] or ""` as its masked text; the
report is not a string in general, so the default masked text is modelled
as `""`). -/
def defaultSafety : GuardResult := ⟨true, "", [], [], "low"⟩

/-- `HealthcarePipeline.run`. A propagated fault carries the trace as
mutated up to the raise (`Except.error (fault, trace)`). -/
def HealthcarePipeline.run {σ ρ : Type} (pipe : HealthcarePipeline σ ρ)
    (raw_text : String) (meta : Meta) (enable_rag : Option Bool) (rag_top_k : Nat)
    (gen_id gen_uid ts : String) :
    Except (PipeFault σ × PipelineTrace σ ρ) (PipelineTrace σ ρ) :=
  let rag_enabled := enable_rag.getD pipe.enable_retrieval
  let trace0 : PipelineTrace σ ρ :=
    ⟨false, none, none, ⟨rag_enabled, false, none, rag_top_k, [], none⟩, none, none, []⟩
  -- 1. Intake
  match process_raw_input raw_text (meta.source.getD "web") (meta.input_type.getD "chat")
      (meta.consent_granted.getD false) meta.user_id gen_id gen_uid ts with
  | .error e =>
    .error (.intake e,
      { trace0 with errors := trace0.errors ++ [⟨"intake", "IntakeValidationError", e.message⟩] })
  | .ok intake_model =>
    let trace1 := { trace0 with intake := some intake_model }
    -- 2. Structuring (faults normalized to StructuringError)
    match pipe.struct intake_model with
    | .error em =>
      .error (.structuring "StructuringError" em.2,
        { trace1 with errors := trace1.errors ++ [⟨"structuring", em.1, em.2⟩] })
    | .ok structured =>
      let trace2 := { trace1 with structured := some structured }
      -- 3. Retrieval (optional, NON-FATAL)
      let rt : List RetrievalChunk × PipelineTrace σ ρ :=
        match pipe.retrieval with
        | some rAgent =>
          if rag_enabled then
            match rAgent structured rag_top_k with
            | .ok payload =>
              (payload.chunks,
               { trace2 with rag := { trace2.rag with
                   used := true, query := payload.query, chunks := payload.chunks } })
            | .error em =>
              ([], { trace2 with rag := { trace2.rag with used := false, error := some em } })
          else ([], trace2)
        | none => ([], trace2)
      -- 4. Output + Safety
      match pipe.output structured rt.1 with
      | .error em =>
        .error (.output em.1 em.2,
          { rt.2 with errors := rt.2.errors ++ [⟨"output", em.1, em.2⟩] })
      | .ok out =>
        let trace4 := { rt.2 with
          report := out.report,
          safety := some (out.safety.getD defaultSafety) }
        -- 5. Mark success
        let trace5 := { trace4 with success := true }
        -- 6. Optional persistence: any fault is swallowed and logged
        let _ := pipe.persist raw_text trace5
        .ok trace5

/-! ## Concrete instances used by witnesses and counterexamples -/

/-- A disabled retrieval agent over a trivial retriever. -/
def agentDisabled : RetrievalAgent := ⟨fun _ _ => .ok [], false⟩

/-- An enabled retrieval agent over a trivial retriever. -/
def agentEnabled : RetrievalAgent := ⟨fun _ _ => .ok [], true⟩

/-- A text that already contains the emergency guidance twice. -/
def guideTwice : String :=
  "chest pain " ++ EMERGENCY_GUIDANCE ++ " " ++ EMERGENCY_GUIDANCE

/-- 5001 blanks followed by valid content: raw length 5023 > 5000, but the
stripped text passes intake validation. -/
def longPadded : String := String.mk (List.replicate 5001 ' ' ++ "headache for two weeks".toList)

/-- A deterministic mock structuring agent (always succeeds). -/
def mockStruct : HealthInput → Except (String × String) Unit := fun _ => .ok ()

/-- A deterministic mock output agent (always succeeds, no `_safety`). -/
def mockOutput : Unit → List RetrievalChunk → Except (String × String) (OutputResult Unit) :=
  fun _ _ => .ok ⟨some (), none⟩

/-- A retrieval agent stub that raises on every call. -/
def failingRetrieval : Unit → Nat → Except (String × String) RetPayload :=
  fun _ _ => .error ("RuntimeError", "retrieval exploded")

/-- Pipeline with a failing retrieval agent and RAG enabled. -/
def pipeFailingRag : HealthcarePipeline Unit Unit :=
  ⟨mockStruct, mockOutput, some failingRetrieval, true, fun _ _ => .ok ()⟩

/-- Pipeline with no retrieval agent and persistence that raises. -/
def pipePersistFail : HealthcarePipeline Unit Unit :=
  ⟨mockStruct, mockOutput, none, false, fun _ _ => .error "db down"⟩

/-- A small vector store with two one-dimensional embeddings. -/
def store2 : VectorStore := ⟨["docA", "docB"], [[1], [3]]⟩

/-- Pipeline with mock agents, no retrieval, persistence succeeding. -/
def pipePlain : HealthcarePipeline Unit Unit :=
  ⟨mockStruct, mockOutput, none, false, fun _ _ => .ok ()⟩

/-! # Theorems -/

/-! ## Helper lemmas: stable descending sort -/

theorem mem_insDesc (x z : String × ℚ) : ∀ (l : List (String × ℚ)),
    z ∈ insDesc x l → z = x ∨ z ∈ l
  | [], h => by simpa [insDesc] using h
  | y :: t, h => by
    by_cases hc : x.2 ≥ y.2
    · simp only [insDesc, if_pos hc] at h
      rcases List.mem_cons.mp h with h | h
      · exact Or.inl h
      · exact Or.inr h
    · simp only [insDesc, if_neg hc] at h
      rcases List.mem_cons.mp h with h | h
      · exact Or.inr (h ▸ List.mem_cons_self _ _)
      · rcases mem_insDesc x z t h with h' | h'
        · exact Or.inl h'
        · exact Or.inr (List.mem_cons_of_mem _ h')

theorem pairwise_insDesc (x : String × ℚ) : ∀ (l : List (String × ℚ)),
    l.Pairwise (fun a b => a.2 ≥ b.2) →
    (insDesc x l).Pairwise (fun a b => a.2 ≥ b.2)
  | [], _ => by simp [insDesc]
  | y :: t, h => by
    rcases List.pairwise_cons.mp h with ⟨hy, ht⟩
    by_cases hc : x.2 ≥ y.2
    · simp only [insDesc, if_pos hc]
      refine List.pairwise_cons.mpr ⟨?_, h⟩
      intro z hz
      rcases List.mem_cons.mp hz with hz | hz
      · exact hz ▸ hc
      · exact le_trans (hy z hz) hc
    · simp only [insDesc, if_neg hc]
      refine List.pairwise_cons.mpr ⟨?_, pairwise_insDesc x t ht⟩
      intro z hz
      rcases mem_insDesc x z t hz with hz | hz
      · exact hz ▸ le_of_lt (lt_of_not_ge hc)
      · exact hy z hz

theorem pairwise_sortDesc : ∀ (l : List (String × ℚ)),
    (sortDesc l).Pairwise (fun a b => a.2 ≥ b.2)
  | [] => by simp [sortDesc]
  | x :: t => by
    simp only [sortDesc]
    exact pairwise_insDesc x (sortDesc t) (pairwise_sortDesc t)

/-! ## C7 -/

/-- C7: `InMemoryVectorStore.query` returns pairs sorted by descending
cosine similarity, truncated to `top_k`; on an empty index it returns `[]`
(and, being a total function, never raises); and the cosine similarity
guard makes a zero-norm argument yield `0` with no division. -/
theorem c7_query_sorted_truncated (sqrt : ℚ → ℚ) (s : VectorStore)
    (q : List ℚ) (k : Nat) :
    (s.query sqrt q k).Pairwise (fun a b => a.2 ≥ b.2) ∧
    (s.query sqrt q k).length ≤ k ∧
    (s.embeddings = [] → s.query sqrt q k = []) ∧
    (∀ v1 v2 : List ℚ, sqrt (sumSq v1) = 0 ∨ sqrt (sumSq v2) = 0 →
      cosine_similarity sqrt v1 v2 = 0) := by
  refine ⟨?_, ?_, ?_, ?_⟩
  · unfold VectorStore.query
    split
    · simp
    · exact (pairwise_sortDesc _).sublist (List.take_sublist _ _)
  · unfold VectorStore.query
    split
    · simp
    · exact List.length_take_le _ _
  · intro h
    unfold VectorStore.query
    simp [h]
  · intro v1 v2 h
    unfold cosine_similarity
    exact if_pos h

/-- Witness for C7 at `sqrt := id`, an empty store, and a zero vector. -/
theorem c7_query_witness :
    ((⟨[], []⟩ : VectorStore).embeddings = [] ∧
      VectorStore.query id ⟨[], []⟩ [1] 2 = []) ∧
    (id (sumSq [(0 : ℚ)]) = 0 ∧ cosine_similarity id [(0 : ℚ)] [1] = 0) :=
  ⟨⟨rfl, (c7_query_sorted_truncated id ⟨[], []⟩ [1] 2).2.2.1 rfl⟩,
   ⟨by norm_num [sumSq],
    (c7_query_sorted_truncated id store2 [0] 1).2.2.2 [0] [1]
      (Or.inl (by norm_num [sumSq]))⟩⟩

/-! ## C10 -/

/-- C10: `add_batch` never fails on mismatched lengths: it adds exactly the
`zip`-truncated pairs, so `count` grows by `min` of the lengths and the
excess elements of the longer list are dropped. -/
theorem c10_add_batch_min (s : VectorStore) (texts : List String)
    (embs : List (List ℚ)) :
    (s.add_batch texts embs).documents = s.documents ++ (texts.zip embs).map Prod.fst ∧
    (s.add_batch texts embs).embeddings = s.embeddings ++ (texts.zip embs).map Prod.snd ∧
    (s.add_batch texts embs).count = s.count + min texts.length embs.length := by
  have key : ∀ (l : List (String × List ℚ)) (st : VectorStore),
      (l.foldl (fun acc te => acc.add te.1 te.2) st).documents
          = st.documents ++ l.map Prod.fst ∧
      (l.foldl (fun acc te => acc.add te.1 te.2) st).embeddings
          = st.embeddings ++ l.map Prod.snd := by
    intro l
    induction l with
    | nil => intro st; simp
    | cons x t ih =>
      intro st
      simp only [List.foldl_cons, List.map_cons]
      rcases ih (st.add x.1 x.2) with ⟨h1, h2⟩
      rw [h1, h2]
      simp [VectorStore.add]
  rcases key (texts.zip embs) s with ⟨h1, h2⟩
  refine ⟨h1, h2, ?_⟩
  unfold VectorStore.count VectorStore.add_batch
  rw [h2]
  simp [List.length_zip]

/-! ## C9 -/

/-- C9: on the empty string and on a `None` input the guard succeeds with
`allowed = true`, severity `"low"`, no actions, no reasons, and an empty
masked text. -/
theorem c9_guard_absent_input :
    guard_text_opt none = ⟨true, "", [], [], "low"⟩ ∧
    guard_text "" = ⟨true, "", [], [], "low"⟩ :=
  ⟨by decide, by decide⟩

/-! ## C4 -/

/-- C4 counterexample: an enabled agent with an empty built query returns
`k = top_k` (here 3), not the claimed `k = 0`. -/
theorem c4_counterexample :
    build_query {} none = "" ∧ agentEnabled.enabled = true ∧
    agentEnabled.retrieve {} none 3 = (.ok ⟨"", [], 3⟩, false) ∧ (3 : Nat) ≠ 0 :=
  ⟨by decide, rfl, by rfl, by decide⟩

/-- C4 amended: when disabled, `retrieve` returns the sentinel
`⟨"", [], 0⟩` without invoking the Retriever; when enabled with an empty
built query it returns `⟨"", [], top_k⟩` (not `k = 0`) without invoking
the Retriever. -/
theorem c4_retrieve_sentinel (agent : RetrievalAgent) (structured : StructuredRecord)
    (intake : Option IntakeDict) (top_k : Nat) :
    (agent.enabled = false →
      agent.retrieve structured intake top_k = (.ok ⟨"", [], 0⟩, false)) ∧
    (agent.enabled = true → build_query structured intake = "" →
      agent.retrieve structured intake top_k = (.ok ⟨"", [], top_k⟩, false)) := by
  constructor
  · intro h
    simp [RetrievalAgent.retrieve, h]
  · intro he hq
    simp [RetrievalAgent.retrieve, he, hq]

/-- Witness for C4's amended statement. -/
theorem c4_retrieve_witness :
    (agentDisabled.enabled = false ∧
      agentDisabled.retrieve {} none 5 = (.ok ⟨"", [], 0⟩, false)) ∧
    (agentEnabled.enabled = true ∧ build_query {} none = "" ∧
      agentEnabled.retrieve {} none 5 = (.ok ⟨"", [], 5⟩, false)) :=
  ⟨⟨rfl, (c4_retrieve_sentinel agentDisabled {} none 5).1 rfl⟩,
   ⟨rfl, by decide, (c4_retrieve_sentinel agentEnabled {} none 5).2 rfl (by decide)⟩⟩

/-! ## C2 -/

theorem max_severity_high_medium : max_severity "high" "medium" = "high" := by decide

theorem max_severity_low_medium : max_severity "low" "medium" = "medium" := by decide

/-- C2: any text matching a diagnosis or prescription pattern is blocked
with severity `"high"`, with the corresponding reason appended and the
corresponding action added. -/
theorem c2_guard_blocks_diag_presc (text : String)
    (h : (matchFirst DIAGNOSIS_PATTERNS text.toList).isSome = true ∨
         (matchFirst PRESCRIPTION_PATTERNS text.toList).isSome = true) :
    (guard_text text).allowed = false ∧ (guard_text text).severity = "high" ∧
    ((matchFirst DIAGNOSIS_PATTERNS text.toList).isSome = true →
      "block_diagnosis" ∈ (guard_text text).actions ∧
      (⟨"MEDICAL_DIAGNOSIS", "Diagnostic certainty detected", none⟩ : GuardReason)
        ∈ (guard_text text).reasons) ∧
    ((matchFirst PRESCRIPTION_PATTERNS text.toList).isSome = true →
      "block_prescription" ∈ (guard_text text).actions ∧
      (⟨"MEDICAL_PRESCRIPTION", "Prescription or dosing detected", none⟩ : GuardReason)
        ∈ (guard_text text).reasons) := by
  by_cases hd : (matchFirst DIAGNOSIS_PATTERNS text.toList).isSome = true <;>
    by_cases hp : (matchFirst PRESCRIPTION_PATTERNS text.toList).isSome = true <;>
    by_cases he : (matchFirst EMERGENCY_PATTERNS text.toList).isSome = true <;>
    by_cases hm : (mask_phi text.toList).2.isEmpty = true <;>
    simp_all [guard_text, max_severity_high_medium]

/-- Witness for C2 on a concrete diagnosis text. -/
theorem c2_guard_witness :
    ((matchFirst DIAGNOSIS_PATTERNS "you have a cold".toList).isSome = true ∨
     (matchFirst PRESCRIPTION_PATTERNS "you have a cold".toList).isSome = true) ∧
    ((guard_text "you have a cold").allowed = false ∧
     (guard_text "you have a cold").severity = "high") :=
  ⟨Or.inl (by decide),
   ⟨(c2_guard_blocks_diag_presc "you have a cold" (Or.inl (by decide))).1,
    (c2_guard_blocks_diag_presc "you have a cold" (Or.inl (by decide))).2.1⟩⟩

/-! ## C5 -/

/-- C5: `success = true` in the returned or fault-accompanying trace iff
the Output stage completed without raising, and the run result is entirely
independent of the persistence hook (a persistence fault after
`success := true` can never invalidate the successful result). -/
theorem c5_success_iff_output (σ ρ : Type) (pipe : HealthcarePipeline σ ρ)
    (raw_text : String) (meta : Meta) (enable_rag : Option Bool) (rag_top_k : Nat)
    (gen_id gen_uid ts : String) :
    (∀ tr, pipe.run raw_text meta enable_rag rag_top_k gen_id gen_uid ts = .ok tr →
      tr.success = true) ∧
    (∀ f tr, pipe.run raw_text meta enable_rag rag_top_k gen_id gen_uid ts = .error (f, tr) →
      tr.success = false) ∧
    (∀ h h' : String → PipelineTrace σ ρ → Except String Unit,
      ({ pipe with persist := h } : HealthcarePipeline σ ρ).run
          raw_text meta enable_rag rag_top_k gen_id gen_uid ts =
      ({ pipe with persist := h' } : HealthcarePipeline σ ρ).run
          raw_text meta enable_rag rag_top_k gen_id gen_uid ts) := by
  refine ⟨?_, ?_, ?_⟩
  · intro tr h
    unfold HealthcarePipeline.run at h
    simp only [] at h
    repeat' split at h
    all_goals first
      | (injection h with h2; subst h2; rfl)
      | (exact absurd h (by simp))
  · intro f tr h
    unfold HealthcarePipeline.run at h
    simp only [] at h
    repeat' split at h
    all_goals first
      | (injection h with h2
         have h3 := congrArg Prod.snd h2
         simp only at h3
         subst h3
         rfl)
      | (exact absurd h (by simp))
  · intro h h'
    unfold HealthcarePipeline.run
    rfl

/-- Witness for C5: a successful run, a failed run, and persistence
independence, at concrete inputs. -/
theorem c5_success_witness :
    (∃ tr, pipePersistFail.run "hello world okay" {} none 3 "id" "uid" "ts" = .ok tr ∧
      tr.success = true) ∧
    (∃ f tr, pipePersistFail.run "hi" {} none 3 "id" "uid" "ts" = .error (f, tr) ∧
      tr.success = false) ∧
    ({ pipePersistFail with persist := fun _ _ => .error "db down" } :
        HealthcarePipeline Unit Unit).run "hello world okay" {} none 3 "id" "uid" "ts" =
      ({ pipePersistFail with persist := fun _ _ => .ok () } :
        HealthcarePipeline Unit Unit).run "hello world okay" {} none 3 "id" "uid" "ts" :=
  ⟨⟨_, rfl, (c5_success_iff_output Unit Unit pipePersistFail
      "hello world okay" {} none 3 "id" "uid" "ts").1 _ rfl⟩,
   ⟨_, _, rfl, (c5_success_iff_output Unit Unit pipePersistFail
      "hi" {} none 3 "id" "uid" "ts").2.1 _ _ rfl⟩,
   (c5_success_iff_output Unit Unit pipePersistFail
      "hello world okay" {} none 3 "id" "uid" "ts").2.2 _ _⟩

/-! ## C1 -/

/-- C1: with retrieval enabled and a configured agent that raises on every
call, the pipeline absorbs the fault: `rag.error` is set, `rag.used` stays
`false`, `rag.chunks` stays `[]`, Output runs with no retrieved context,
and the run still finishes with `success = true` and the produced report. -/
theorem c1_retrieval_fault_absorbed (σ ρ : Type) (pipe : HealthcarePipeline σ ρ)
    (raw_text : String) (meta : Meta) (enable_rag : Option Bool) (rag_top_k : Nat)
    (gen_id gen_uid ts : String)
    (rA : σ → Nat → Except (String × String) RetPayload)
    (hagent : pipe.retrieval = some rA)
    (hfail : ∀ sd k, ∃ e, rA sd k = .error e)
    (henabled : enable_rag.getD pipe.enable_retrieval = true)
    (im : HealthInput)
    (hI : process_raw_input raw_text (meta.source.getD "web") (meta.input_type.getD "chat")
        (meta.consent_granted.getD false) meta.user_id gen_id gen_uid ts = .ok im)
    (sd : σ) (hS : pipe.struct im = .ok sd)
    (out : OutputResult ρ) (hO : pipe.output sd [] = .ok out) :
    ∃ tr, pipe.run raw_text meta enable_rag rag_top_k gen_id gen_uid ts = .ok tr ∧
      tr.success = true ∧ tr.rag.used = false ∧ tr.rag.chunks = [] ∧
      tr.rag.error.isSome = true ∧ tr.report = out.report := by
  obtain ⟨e, he⟩ := hfail sd rag_top_k
  unfold HealthcarePipeline.run
  simp only [hI, hS, hagent, henabled, he, hO, if_true]
  exact ⟨_, rfl, rfl, rfl, rfl, rfl, rfl⟩

/-- Witness for C1 with a concrete always-raising retrieval agent. -/
theorem c1_retrieval_witness :
    pipeFailingRag.retrieval = some failingRetrieval ∧
    (∃ tr, pipeFailingRag.run "hello world okay" {} none 3 "id" "uid" "ts" = .ok tr ∧
      tr.success = true ∧ tr.rag.used = false ∧ tr.rag.chunks = [] ∧
      tr.rag.error.isSome = true ∧ tr.report = some ()) :=
  ⟨rfl, by
    have h := c1_retrieval_fault_absorbed Unit Unit pipeFailingRag
      "hello world okay" {} none 3 "id" "uid" "ts" failingRetrieval rfl
      (fun _ _ => ⟨("RuntimeError", "retrieval exploded"), rfl⟩) rfl
      ⟨"id", "uid", "hello world okay", "web", "chat", "ts", false, false⟩ rfl
      () rfl ⟨some (), none⟩ rfl
    simpa using h⟩

/-! ## C6 -/

/-- A successful intake implies the stripped text length is in `[10, 5000]`. -/
theorem process_raw_input_ok_length (raw_text source input_type : String)
    (cg : Bool) (uid : Option String) (g1 g2 ts : String) (im : HealthInput)
    (h : process_raw_input raw_text source input_type cg uid g1 g2 ts = .ok im) :
    10 ≤ (stripL raw_text.toList).length ∧ (stripL raw_text.toList).length ≤ 5000 := by
  unfold process_raw_input at h
  simp only [] at h
  repeat' split at h
  all_goals first
    | (constructor <;> omega)
    | (simp at h)

theorem dropWhile_ws_replicate : ∀ (n : Nat) (l : List Char),
    List.dropWhile wsChar (List.replicate n ' ' ++ l) = List.dropWhile wsChar l
  | 0, _ => rfl
  | n + 1, l => by
    rw [List.replicate_succ, List.cons_append, List.dropWhile_cons,
      if_pos (show wsChar ' ' = true by decide)]
    exact dropWhile_ws_replicate n l

/-- Intake validation depends on the raw text only through non-emptiness
and its stripped form. -/
theorem process_raw_input_congr (r1 r2 : String) (source it : String) (cg : Bool)
    (uid : Option String) (g1 g2 ts : String)
    (h1 : r1.toList.isEmpty = false) (h2 : r2.toList.isEmpty = false)
    (h : stripL r1.toList = stripL r2.toList) :
    process_raw_input r1 source it cg uid g1 g2 ts =
      process_raw_input r2 source it cg uid g1 g2 ts := by
  unfold process_raw_input
  simp only [h, h1, h2, Bool.false_or]

/-- C6 counterexample: a raw text of 5023 characters (5001 blanks then
valid content) exceeds the claimed 5000-character bound yet intake
succeeds and the pipeline completes. -/
theorem c6_counterexample :
    longPadded.toList.length = 5023 ∧
    (stripL longPadded.toList).length = 22 ∧
    (pipePlain.run longPadded {} none 3 "id" "uid" "ts").isOk = true := by
  have hstrip : stripL longPadded.toList = "headache for two weeks".toList := by
    show rstripL ((List.replicate 5001 ' ' ++ "headache for two weeks".toList).dropWhile wsChar)
      = "headache for two weeks".toList
    rw [dropWhile_ws_replicate]
    decide
  have hlen : longPadded.toList.length = 5023 := by
    show (List.replicate 5001 ' ' ++ "headache for two weeks".toList).length = 5023
    rw [List.length_append, List.length_replicate]
    decide
  have hA : longPadded.toList.isEmpty = false := by
    cases hE : longPadded.toList.isEmpty
    · rfl
    · rw [List.isEmpty_iff.mp hE] at hlen
      simp at hlen
  refine ⟨hlen, by rw [hstrip]; decide, ?_⟩
  have hpri : process_raw_input longPadded (({} : Meta).source.getD "web")
      (({} : Meta).input_type.getD "chat") (({} : Meta).consent_granted.getD false)
      (({} : Meta).user_id) "id" "uid" "ts" =
      .ok ⟨"id", "uid", "headache for two weeks", "web", "chat", "ts", false, false⟩ := by
    rw [process_raw_input_congr longPadded "headache for two weeks" _ _ _ _ _ _ _
      hA (by decide) (by rw [hstrip]; decide)]
    rfl
  unfold HealthcarePipeline.run
  simp only [hpri]
  rfl

/-- C6 amended: for every raw text whose *stripped* length is below 10 or
above 5000 characters, the run fails with the intake fault, the trace
records exactly one error with stage `"intake"` and type
`"IntakeValidationError"`, and no later stage runs (`structured`, `report`
stay `none`, `success` stays `false`). -/
theorem c6_intake_length_fails (σ ρ : Type) (pipe : HealthcarePipeline σ ρ)
    (raw_text : String) (meta : Meta) (enable_rag : Option Bool) (rag_top_k : Nat)
    (gen_id gen_uid ts : String)
    (h : (stripL raw_text.toList).length < 10 ∨ 5000 < (stripL raw_text.toList).length) :
    ∃ e tr, pipe.run raw_text meta enable_rag rag_top_k gen_id gen_uid ts =
        .error (.intake e, tr) ∧
      tr.errors = [⟨"intake", "IntakeValidationError", e.message⟩] ∧
      tr.intake = none ∧ tr.structured = none ∧ tr.report = none ∧
      tr.success = false ∧ tr.rag.used = false ∧ tr.rag.chunks = [] := by
  cases hPR : process_raw_input raw_text (meta.source.getD "web") (meta.input_type.getD "chat")
      (meta.consent_granted.getD false) meta.user_id gen_id gen_uid ts with
  | ok im =>
    have := process_raw_input_ok_length _ _ _ _ _ _ _ _ _ hPR
    omega
  | error e =>
    refine ⟨e, ⟨false, none, none,
        ⟨enable_rag.getD pipe.enable_retrieval, false, none, rag_top_k, [], none⟩,
        none, none, [⟨"intake", "IntakeValidationError", e.message⟩]⟩,
      ?_, rfl, rfl, rfl, rfl, rfl, rfl, rfl⟩
    unfold HealthcarePipeline.run
    simp [hPR]

/-! ## Matcher invariants -/

theorem mem_descRange {lo top k : Nat} (h : k ∈ descRange lo top) :
    lo ≤ k ∧ k ≤ top := by
  unfold descRange at h
  split at h
  · simp at h
  · rcases List.mem_map.mp h with ⟨i, hi, rfl⟩
    have := List.mem_range.mp hi
    omega

theorem runLen_le_length (cc : CC) : ∀ (s : List Char), runLen cc s ≤ s.length
  | [] => le_refl _
  | c :: t => by
    by_cases hc : ccSat cc c = true
    · simpa [runLen, hc] using runLen_le_length cc t
    · simp [runLen, hc]

theorem take_runLen_sat (cc : CC) : ∀ (s : List Char) (k : Nat), k ≤ runLen cc s →
    ∀ c ∈ s.take k, ccSat cc c = true
  | _, 0, _, c, hc => by simp at hc
  | [], _ + 1, _, c, hc => by simp at hc
  | x :: t, k + 1, hk, c, hc => by
    have hx : ccSat cc x = true := by
      by_contra hx
      simp [runLen, hx] at hk
    rw [List.take_succ_cons] at hc
    rcases List.mem_cons.mp hc with rfl | hc
    · exact hx
    · have hk' : k ≤ runLen cc t := by
        simp only [runLen, hx, if_true] at hk
        omega
      exact take_runLen_sat cc t k hk' c hc

theorem repSplits_spec {cc : CC} {lo : Nat} {hi : Option Nat} {s m r : List Char}
    (h : (m, r) ∈ repSplits cc lo hi s) :
    m ++ r = s ∧ (∀ c ∈ m, ccSat cc c = true) ∧ lo ≤ m.length := by
  unfold repSplits at h
  rcases List.mem_map.mp h with ⟨k, hk, heq⟩
  rcases mem_descRange hk with ⟨hlo, htop⟩
  have hkn : k ≤ runLen cc s := by
    rcases hi with _ | hcap
    · exact htop
    · simp only at htop
      omega
  have hm : m = s.take k := (Prod.mk.injEq _ _ _ _ ▸ heq).1.symm
  have hr : r = s.drop k := (Prod.mk.injEq _ _ _ _ ▸ heq).2.symm
  subst hm; subst hr
  refine ⟨List.take_append_drop k s, take_runLen_sat cc s k hkn, ?_⟩
  have := runLen_le_length cc s
  rw [List.length_take]
  omega

theorem plusLoop_append (f : Option Char → List Char → List (List Char × List Char))
    (hf : ∀ p s mr, mr ∈ f p s → mr.1 ++ mr.2 = s) :
    ∀ (fuel : Nat) (p : Option Char) (s : List Char) (mr : List Char × List Char),
      mr ∈ plusLoop f fuel p s → mr.1 ++ mr.2 = s
  | 0, p, s, mr, h => by simp [plusLoop] at h
  | fuel + 1, p, s, mr, h => by
    simp only [plusLoop] at h
    rcases List.mem_flatMap.mp h with ⟨mq, hmq, h2⟩
    by_cases he : mq.1.isEmpty
    · rw [if_pos he] at h2
      rcases List.mem_singleton.mp h2 with rfl
      rfl
    · rw [if_neg he] at h2
      rcases List.mem_append.mp h2 with h2 | h2
      · rcases List.mem_map.mp h2 with ⟨nq, hnq, heq⟩
        have happ2 := plusLoop_append f hf fuel (prevAfter p mq.1) mq.2 nq hnq
        subst heq
        simp only
        rw [List.append_assoc, happ2, hf p s mq hmq]
      · have heq : mr = mq := List.mem_singleton.mp h2
        rw [heq]
        exact hf p s mq hmq

theorem plusLoop_ne_nil (f : Option Char → List Char → List (List Char × List Char))
    (hf : ∀ p s mr, mr ∈ f p s → mr.1 ≠ []) :
    ∀ (fuel : Nat) (p : Option Char) (s : List Char) (mr : List Char × List Char),
      mr ∈ plusLoop f fuel p s → mr.1 ≠ []
  | 0, p, s, mr, h => by simp [plusLoop] at h
  | fuel + 1, p, s, mr, h => by
    simp only [plusLoop] at h
    rcases List.mem_flatMap.mp h with ⟨mq, hmq, h2⟩
    have hne := hf p s mq hmq
    rw [if_neg (by simpa using hne)] at h2
    rcases List.mem_append.mp h2 with h2 | h2
    · rcases List.mem_map.mp h2 with ⟨nq, hnq, heq⟩
      subst heq
      simp [hne]
    · have heq : mr = mq := List.mem_singleton.mp h2
      rw [heq]
      exact hne

theorem plusLoop_chars (f : Option Char → List Char → List (List Char × List Char))
    (ok : Char → Bool)
    (hf : ∀ p s mr, mr ∈ f p s → ∀ c ∈ mr.1, ok c = true) :
    ∀ (fuel : Nat) (p : Option Char) (s : List Char) (mr : List Char × List Char),
      mr ∈ plusLoop f fuel p s → ∀ c ∈ mr.1, ok c = true
  | 0, p, s, mr, h => by simp [plusLoop] at h
  | fuel + 1, p, s, mr, h => by
    simp only [plusLoop] at h
    rcases List.mem_flatMap.mp h with ⟨mq, hmq, h2⟩
    intro c hc
    by_cases he : mq.1.isEmpty
    · rw [if_pos he] at h2
      rcases List.mem_singleton.mp h2 with rfl
      simp at hc
    · rw [if_neg he] at h2
      rcases List.mem_append.mp h2 with h2 | h2
      · rcases List.mem_map.mp h2 with ⟨nq, hnq, heq⟩
        subst heq
        simp only [List.mem_append] at hc
        rcases hc with hc | hc
        · exact hf p s mq hmq c hc
        · exact plusLoop_chars f ok hf fuel (prevAfter p mq.1) mq.2 nq hnq c hc
      · have heq : mr = mq := List.mem_singleton.mp h2
        exact hf p s mq hmq c (heq ▸ hc)

/-- Every match result splits the input: `consumed ++ remaining = input`. -/
theorem mtch_append : ∀ (re : RE) (p : Option Char) (s : List Char)
    (mr : List Char × List Char), mr ∈ mtch re p s → mr.1 ++ mr.2 = s
  | .eps, p, s, mr, h => by
    rcases List.mem_singleton.mp (by simpa [mtch] using h) with rfl
    rfl
  | .ch cc, p, [], mr, h => by simp [mtch] at h
  | .ch cc, p, c :: rest, mr, h => by
    by_cases hc : ccSat cc c = true
    · simp only [mtch, if_pos hc] at h
      rcases List.mem_singleton.mp h with rfl
      rfl
    · simp [mtch, hc] at h
  | .cat a b, p, s, mr, h => by
    simp only [mtch] at h
    rcases List.mem_flatMap.mp h with ⟨mq, hmq, h2⟩
    rcases List.mem_map.mp h2 with ⟨nq, hnq, heq⟩
    subst heq
    have h3 := mtch_append a p s mq hmq
    have h4 := mtch_append b (prevAfter p mq.1) mq.2 nq hnq
    simp only
    rw [List.append_assoc, h4, h3]
  | .alt a b, p, s, mr, h => by
    simp only [mtch] at h
    rcases List.mem_append.mp h with h | h
    · exact mtch_append a p s mr h
    · exact mtch_append b p s mr h
  | .bound, p, s, mr, h => by
    by_cases hb : isBoundary p s = true
    · simp only [mtch, if_pos hb] at h
      rcases List.mem_singleton.mp h with rfl
      rfl
    · simp [mtch, hb] at h
  | .rep cc lo hi, p, s, mr, h => by
    have h' : (mr.1, mr.2) ∈ repSplits cc lo hi s := by simpa [mtch] using h
    exact (repSplits_spec h').1
  | .grpPlus r, p, s, mr, h =>
    plusLoop_append (mtch r) (fun p' s' mq hm => mtch_append r p' s' mq hm)
      (s.length + 1) p s mr (by simpa [mtch] using h)

/-- Every consumed character satisfies the pattern's character
over-approximation. -/
theorem mtch_chars : ∀ (re : RE) (p : Option Char) (s : List Char)
    (mr : List Char × List Char), mr ∈ mtch re p s → ∀ c ∈ mr.1, reCharOK re c = true
  | .eps, p, s, mr, h => by
    intro c hc
    have heq : mr = ([], s) := List.mem_singleton.mp (by simpa [mtch] using h)
    rw [heq] at hc
    simp at hc
  | .ch cc, p, [], mr, h => by simp [mtch] at h
  | .ch cc, p, c :: rest, mr, h => by
    intro c' hc'
    by_cases hc : ccSat cc c = true
    · have heq : mr = ([c], rest) := List.mem_singleton.mp (by simpa [mtch, hc] using h)
      rw [heq] at hc'
      rcases List.mem_singleton.mp hc' with rfl
      simpa [reCharOK] using hc
    · simp [mtch, hc] at h
  | .cat a b, p, s, mr, h => by
    intro c hc
    simp only [mtch] at h
    rcases List.mem_flatMap.mp h with ⟨mq, hmq, h2⟩
    rcases List.mem_map.mp h2 with ⟨nq, hnq, heq⟩
    rw [← heq] at hc
    simp only [List.mem_append] at hc
    simp only [reCharOK, Bool.or_eq_true]
    rcases hc with hc | hc
    · exact Or.inl (mtch_chars a p s mq hmq c hc)
    · exact Or.inr (mtch_chars b (prevAfter p mq.1) mq.2 nq hnq c hc)
  | .alt a b, p, s, mr, h => by
    intro c hc
    simp only [mtch] at h
    simp only [reCharOK, Bool.or_eq_true]
    rcases List.mem_append.mp h with h | h
    · exact Or.inl (mtch_chars a p s mr h c hc)
    · exact Or.inr (mtch_chars b p s mr h c hc)
  | .bound, p, s, mr, h => by
    intro c hc
    by_cases hb : isBoundary p s = true
    · have heq : mr = ([], s) := List.mem_singleton.mp (by simpa [mtch, hb] using h)
      rw [heq] at hc
      simp at hc
    · simp [mtch, hb] at h
  | .rep cc lo hi, p, s, mr, h => by
    intro c hc
    have h' : (mr.1, mr.2) ∈ repSplits cc lo hi s := by simpa [mtch] using h
    simpa [reCharOK] using (repSplits_spec h').2.1 c hc
  | .grpPlus r, p, s, mr, h => by
    intro c hc
    have := plusLoop_chars (mtch r) (reCharOK r)
      (fun p' s' mq hm => mtch_chars r p' s' mq hm)
      (s.length + 1) p s mr (by simpa [mtch] using h) c hc
    simpa [reCharOK] using this

/-- A syntactically non-nullable pattern never matches the empty string. -/
theorem mtch_ne_nil : ∀ (re : RE), nullable re = false → ∀ (p : Option Char)
    (s : List Char) (mr : List Char × List Char), mr ∈ mtch re p s → mr.1 ≠ []
  | .eps, h, _, _, _, _ => by simp [nullable] at h
  | .ch cc, _, p, [], mr, hm => by simp [mtch] at hm
  | .ch cc, _, p, c :: rest, mr, hm => by
    by_cases hc : ccSat cc c = true
    · have heq : mr = ([c], rest) := List.mem_singleton.mp (by simpa [mtch, hc] using hm)
      rw [heq]
      simp
    · simp [mtch, hc] at hm
  | .cat a b, h, p, s, mr, hm => by
    simp only [mtch] at hm
    rcases List.mem_flatMap.mp hm with ⟨mq, hmq, h2⟩
    rcases List.mem_map.mp h2 with ⟨nq, hnq, heq⟩
    rw [← heq]
    simp only [nullable, Bool.and_eq_false_iff] at h
    rcases h with h | h
    · have := mtch_ne_nil a h p s mq hmq
      simp [this]
    · have := mtch_ne_nil b h (prevAfter p mq.1) mq.2 nq hnq
      simp [this]
  | .alt a b, h, p, s, mr, hm => by
    simp only [mtch] at hm
    simp only [nullable, Bool.or_eq_false_iff] at h
    rcases List.mem_append.mp hm with hm | hm
    · exact mtch_ne_nil a h.1 p s mr hm
    · exact mtch_ne_nil b h.2 p s mr hm
  | .bound, h, _, _, _, _ => by simp [nullable] at h
  | .rep cc lo hi, h, p, s, mr, hm => by
    have h' : (mr.1, mr.2) ∈ repSplits cc lo hi s := by simpa [mtch] using hm
    have hlo := (repSplits_spec h').2.2
    simp only [nullable, beq_eq_false_iff_ne, ne_eq] at h
    intro hnil
    rw [hnil] at hlo
    simp at hlo
    omega
  | .grpPlus r, h, p, s, mr, hm => by
    have h' : nullable r = false := by simpa [nullable] using h
    exact plusLoop_ne_nil (mtch r) (fun p' s' mq hq => mtch_ne_nil r h' p' s' mq hq)
      (s.length + 1) p s mr (by simpa [mtch] using hm)

/-! ## Occurrence-count lemmas -/

theorem countOcc_eq_zero_iff (g : List Char) (hg : g ≠ []) :
    ∀ (s : List Char), countOcc g s = 0 ↔ listContains g s = false
  | [] => by
    rcases g with _ | ⟨a, g'⟩
    · simp at hg
    · simp [countOcc, listContains]
  | c :: t => by
    by_cases hp : g.isPrefixOf (c :: t) = true
    · simp [countOcc, listContains, hp]
    · simp [countOcc, listContains, hp, countOcc_eq_zero_iff g hg t]

theorem countOcc_cons_le (g : List Char) (c : Char) (t : List Char) :
    countOcc g t ≤ countOcc g (c :: t) := by
  simp only [countOcc]
  omega

theorem countOcc_append_right_le (g : List Char) :
    ∀ (m r : List Char), countOcc g r ≤ countOcc g (m ++ r)
  | [], r => le_refl _
  | x :: m', r => by
    calc countOcc g r ≤ countOcc g (m' ++ r) := countOcc_append_right_le g m' r
    _ ≤ countOcc g (x :: (m' ++ r)) := countOcc_cons_le g x (m' ++ r)

theorem isPrefixOf_append_left {g zs : List Char} (ys : List Char)
    (h : g.isPrefixOf zs = true) : g.isPrefixOf (zs ++ ys) = true := by
  have h' := List.isPrefixOf_iff_prefix.mp h
  exact List.isPrefixOf_iff_prefix.mpr (h'.trans (List.prefix_append zs ys))

theorem countOcc_prefix_le (g : List Char) :
    ∀ (a b : List Char), countOcc g a ≤ countOcc g (a ++ b)
  | [], b => by simp [countOcc]
  | x :: a', b => by
    simp only [List.cons_append, countOcc, List.append_eq]
    have hb := countOcc_prefix_le g a' b
    by_cases hp : g.isPrefixOf (x :: a') = true
    · rw [if_pos hp, if_pos (by
        have := isPrefixOf_append_left b hp
        simpa using this)]
      omega
    · rw [if_neg hp]
      split <;> omega

theorem isPrefixOf_append_absent {g : List Char} {c : Char} (hc : c ∉ g) :
    ∀ (zs ys : List Char), g.isPrefixOf (zs ++ c :: ys) = g.isPrefixOf zs := by
  intro zs
  induction g generalizing zs with
  | nil => intro ys; simp [List.isPrefixOf]
  | cons a g' ih =>
    intro ys
    rcases zs with _ | ⟨z, zs'⟩
    · simp only [List.nil_append, List.isPrefixOf]
      have : ¬(a == c) = true := by
        intro hac
        exact hc (by simp [beq_iff_eq.mp hac])
      simp [this]
    · simp only [List.cons_append, List.isPrefixOf, List.append_eq]
      have := ih (fun hm => hc (List.mem_cons_of_mem a hm)) zs' ys
      rw [this]

theorem countOcc_cons_absent {g : List Char} {c : Char} (hg : g ≠ []) (hc : c ∉ g)
    (ys : List Char) : countOcc g (c :: ys) = countOcc g ys := by
  simp only [countOcc]
  have : ¬g.isPrefixOf (c :: ys) = true := by
    intro hp
    rcases g with _ | ⟨a, g'⟩
    · exact hg rfl
    · simp only [List.isPrefixOf, Bool.and_eq_true] at hp
      exact hc (by simp [beq_iff_eq.mp hp.1])
  simp [this]

theorem countOcc_append_absent {g : List Char} {c : Char} (hg : g ≠ []) (hc : c ∉ g) :
    ∀ (xs ys : List Char), countOcc g (xs ++ c :: ys) = countOcc g xs + countOcc g ys
  | [], ys => by
    simp only [List.nil_append]
    rw [countOcc_cons_absent hg hc ys]
    rcases g with _ | ⟨a, g'⟩
    · exact absurd rfl hg
    · simp [countOcc]
  | x :: xs', ys => by
    simp only [List.cons_append, countOcc, List.append_eq]
    rw [countOcc_append_absent hg hc xs' ys]
    have hpx : g.isPrefixOf (x :: (xs' ++ c :: ys)) = g.isPrefixOf (x :: xs') := by
      simpa using isPrefixOf_append_absent hc (x :: xs') ys
    simp only [hpx]
    omega

theorem countOcc_of_short (g : List Char) :
    ∀ (s : List Char), s.length < g.length → countOcc g s = 0
  | [], _ => rfl
  | c :: t, h => by
    simp only [countOcc]
    have hnp : ¬g.isPrefixOf (c :: t) = true := by
      intro hp
      have hle := (List.isPrefixOf_iff_prefix.mp hp).length_le
      simp only [List.length_cons] at hle h
      omega
    rw [if_neg hnp,
      countOcc_of_short g t (by simp only [List.length_cons] at h; omega)]

theorem countOcc_self (g : List Char) (hg : g ≠ []) : countOcc g g = 1 := by
  rcases g with _ | ⟨a, g'⟩
  · exact absurd rfl hg
  · simp only [countOcc]
    rw [if_pos (List.isPrefixOf_iff_prefix.mpr (List.prefix_refl _)),
      countOcc_of_short _ _ (by simp)]

/-! ## Substitution-scan lemmas

The replacement strings of `_mask_phi` all start with `'['` and end with
`']'`, and the guidance string contains neither bracket; these shape facts
make substitution unable to create new occurrences of the guidance. -/

theorem subScan_cons_none {re : RE} {rp : List Char} {fuel : Nat} {p : Option Char}
    {c : Char} {rest : List Char} (hm : (mtch re p (c :: rest)).head? = none) :
    subScan re rp (fuel + 1) p (c :: rest) = c :: subScan re rp fuel (some c) rest := by
  simp [subScan, hm]

theorem subScan_cons_some_empty {re : RE} {rp : List Char} {fuel : Nat} {p : Option Char}
    {c : Char} {rest : List Char} {mr : List Char × List Char}
    (hm : (mtch re p (c :: rest)).head? = some mr) (he : mr.1.isEmpty = true) :
    subScan re rp (fuel + 1) p (c :: rest) = c :: subScan re rp fuel (some c) rest := by
  simp [subScan, hm, he]

theorem subScan_cons_some {re : RE} {rp : List Char} {fuel : Nat} {p : Option Char}
    {c : Char} {rest : List Char} {mr : List Char × List Char}
    (hm : (mtch re p (c :: rest)).head? = some mr) (he : ¬mr.1.isEmpty = true) :
    subScan re rp (fuel + 1) p (c :: rest) =
      rp ++ subScan re rp fuel (prevAfter p mr.1) mr.2 := by
  simp [subScan, hm, he]

/-- A bracket-free string that is a prefix of a substitution output is a
prefix of the input. -/
theorem subScan_isPrefixOf (re : RE) (rp rp1 : List Char) (hrp : rp = '[' :: rp1) :
    ∀ (fuel : Nat) (g' : List Char), '[' ∉ g' → ∀ (p : Option Char) (s : List Char),
      g'.isPrefixOf (subScan re rp fuel p s) = true → g'.isPrefixOf s = true
  | 0, g', hg, p, s, h => by simpa [subScan] using h
  | fuel + 1, g', hg, p, s, h => by
    cases s with
    | nil => simpa [subScan] using h
    | cons c rest =>
      cases hm : (mtch re p (c :: rest)).head? with
      | none =>
        rw [subScan_cons_none hm] at h
        cases g' with
        | nil => simp [List.isPrefixOf]
        | cons a g'' =>
          simp only [List.isPrefixOf, Bool.and_eq_true] at h ⊢
          exact ⟨h.1, subScan_isPrefixOf re rp rp1 hrp fuel g''
            (fun hmem => hg (List.mem_cons_of_mem a hmem)) (some c) rest h.2⟩
      | some mr =>
        by_cases he : mr.1.isEmpty = true
        · rw [subScan_cons_some_empty hm he] at h
          cases g' with
          | nil => simp [List.isPrefixOf]
          | cons a g'' =>
            simp only [List.isPrefixOf, Bool.and_eq_true] at h ⊢
            exact ⟨h.1, subScan_isPrefixOf re rp rp1 hrp fuel g''
              (fun hmem => hg (List.mem_cons_of_mem a hmem)) (some c) rest h.2⟩
        · rw [subScan_cons_some hm he] at h
          cases g' with
          | nil => simp [List.isPrefixOf]
          | cons a g'' =>
            rw [hrp] at h
            simp only [List.cons_append, List.isPrefixOf, Bool.and_eq_true] at h
            have ha : a = '[' := beq_iff_eq.mp h.1
            exact absurd (ha ▸ List.mem_cons_self a g'') hg

/-- Substitution never increases the number of occurrences of a
bracket-free pattern at least as long as the replacement. -/
theorem subScan_countOcc_le (re : RE) (g rp rp0 rp1 : List Char)
    (hg : g ≠ []) (hgl : '[' ∉ g) (hgr : ']' ∉ g)
    (h1 : rp = '[' :: rp1) (h2 : rp = rp0 ++ [']']) (hlen : rp.length ≤ g.length) :
    ∀ (fuel : Nat) (p : Option Char) (s : List Char),
      countOcc g (subScan re rp fuel p s) ≤ countOcc g s
  | 0, p, s => by simp [subScan]
  | fuel + 1, p, s => by
    cases s with
    | nil => simp [subScan, countOcc]
    | cons c rest =>
      have hkept : countOcc g (c :: subScan re rp fuel (some c) rest) ≤
          countOcc g (c :: rest) := by
        simp only [countOcc]
        have hrec := subScan_countOcc_le re g rp rp0 rp1 hg hgl hgr h1 h2 hlen
          fuel (some c) rest
        by_cases hp : g.isPrefixOf (c :: subScan re rp fuel (some c) rest) = true
        · have hp' : g.isPrefixOf (c :: rest) = true := by
            cases g with
            | nil => exact absurd rfl hg
            | cons a g'' =>
              simp only [List.isPrefixOf, Bool.and_eq_true] at hp ⊢
              exact ⟨hp.1, subScan_isPrefixOf re rp rp1 h1 fuel g''
                (fun hmem => hgl (List.mem_cons_of_mem a hmem)) (some c) rest hp.2⟩
          rw [if_pos hp, if_pos hp']
          omega
        · rw [if_neg hp]
          split <;> omega
      cases hm : (mtch re p (c :: rest)).head? with
      | none =>
        rw [subScan_cons_none hm]
        exact hkept
      | some mr =>
        by_cases he : mr.1.isEmpty = true
        · rw [subScan_cons_some_empty hm he]
          exact hkept
        · rw [subScan_cons_some hm he]
          have hblock : countOcc g (rp ++ subScan re rp fuel (prevAfter p mr.1) mr.2) =
              countOcc g (subScan re rp fuel (prevAfter p mr.1) mr.2) := by
            rw [h2, List.append_assoc, List.singleton_append,
              countOcc_append_absent hg hgr rp0 _]
            have h0 : countOcc g rp0 = 0 := countOcc_of_short g rp0 (by
              have hl : rp.length = rp0.length + 1 := by rw [h2]; simp
              omega)
            omega
          rw [hblock]
          have hmem : mr ∈ mtch re p (c :: rest) :=
            List.mem_of_mem_head? (by simp [hm])
          have happ := mtch_append re p (c :: rest) mr hmem
          calc countOcc g (subScan re rp fuel (prevAfter p mr.1) mr.2)
              ≤ countOcc g mr.2 :=
                subScan_countOcc_le re g rp rp0 rp1 hg hgl hgr h1 h2 hlen
                  fuel (prevAfter p mr.1) mr.2
            _ ≤ countOcc g (mr.1 ++ mr.2) := countOcc_append_right_le g mr.1 mr.2
            _ = countOcc g (c :: rest) := by rw [happ]

/-! ## rstrip and append_guidance lemmas -/

theorem rstripL_append_ws (s : List Char) :
    ∃ w, s = rstripL s ++ w ∧ ∀ c ∈ w, wsChar c = true := by
  refine ⟨(s.reverse.takeWhile wsChar).reverse, ?_, ?_⟩
  · calc s = s.reverse.reverse := (List.reverse_reverse s).symm
      _ = (s.reverse.takeWhile wsChar ++ s.reverse.dropWhile wsChar).reverse := by
          rw [List.takeWhile_append_dropWhile wsChar s.reverse]
      _ = (s.reverse.dropWhile wsChar).reverse ++ (s.reverse.takeWhile wsChar).reverse := by
          rw [List.reverse_append]
      _ = rstripL s ++ (s.reverse.takeWhile wsChar).reverse := rfl
  · intro c hc
    exact List.mem_takeWhile_imp (List.mem_reverse.mp hc)

theorem countOcc_rstrip_le (g s : List Char) :
    countOcc g (rstripL s) ≤ countOcc g s := by
  obtain ⟨w, hw, _⟩ := rstripL_append_ws s
  calc countOcc g (rstripL s) ≤ countOcc g (rstripL s ++ w) := countOcc_prefix_le g _ w
    _ = countOcc g s := by rw [← hw]

/-- When the guidance does not yet occur, `append_guidance` makes it occur
exactly once (the guidance contains no newline, so no occurrence crosses
the separator). -/
theorem append_guidance_count_one {g m : List Char} (hg : g ≠ []) (hnl : '\n' ∉ g)
    (h0 : countOcc g m = 0) : countOcc g (append_guidance m g) = 1 := by
  unfold append_guidance
  have hr0 : countOcc g (rstripL m) = 0 :=
    Nat.le_zero.mp (h0 ▸ countOcc_rstrip_le g m)
  have hcon : listContains g (rstripL m) = false := (countOcc_eq_zero_iff g hg _).mp hr0
  rw [if_neg (by simp [hcon])]
  rw [countOcc_append_absent hg hnl (rstripL m) ('\n' :: g), hr0,
    countOcc_cons_absent hg hnl g, countOcc_self g hg]

/-- Re-applying `append_guidance` never yields a second copy. -/
theorem append_guidance_le_one {g m : List Char} (hg : g ≠ []) (hnl : '\n' ∉ g)
    (h1 : countOcc g m ≤ 1) : countOcc g (append_guidance m g) ≤ 1 := by
  unfold append_guidance
  have hrle : countOcc g (rstripL m) ≤ countOcc g m := countOcc_rstrip_le g m
  by_cases hc : listContains g (rstripL m) = true
  · rw [if_pos (by simp [hc])]
    omega
  · rw [if_neg (by simpa using hc)]
    have hr0 : countOcc g (rstripL m) = 0 :=
      (countOcc_eq_zero_iff g hg _).mpr (by simpa using hc)
    rw [countOcc_append_absent hg hnl (rstripL m) ('\n' :: g), hr0,
      countOcc_cons_absent hg hnl g, countOcc_self g hg]

/-! ## Masking cannot create guidance occurrences -/

theorem placeholder_shape (rp g : List Char) (hhead : rp.head? = some '[')
    (hlast : rp.getLast? = some ']') (hlen : rp.length ≤ g.length) :
    ∃ rp1 rp0, rp = '[' :: rp1 ∧ rp = rp0 ++ [']'] ∧ rp.length ≤ g.length := by
  cases rp with
  | nil => simp at hhead
  | cons a t =>
    simp only [List.head?_cons, Option.some.injEq] at hhead
    refine ⟨t, (a :: t).dropLast, by rw [hhead], ?_, hlen⟩
    exact (List.dropLast_append_getLast? ']' (Option.mem_def.mpr hlast)).symm

theorem maskStrong_countOcc_le (g : List Char) (hg : g ≠ []) (hgl : '[' ∉ g)
    (hgr : ']' ∉ g) :
    ∀ (pats : List (String × RE × String)),
      (∀ e ∈ pats, ∃ rp1 rp0, e.2.2.toList = '[' :: rp1 ∧
        e.2.2.toList = rp0 ++ [']'] ∧ e.2.2.toList.length ≤ g.length) →
      ∀ (m : List Char) (rs : List GuardReason),
        countOcc g (maskStrong pats (m, rs)).1 ≤ countOcc g m
  | [], _, m, rs => le_refl _
  | (ty, re, rp) :: rest, hsh, m, rs => by
    simp only [maskStrong]
    obtain ⟨rp1, rp0, hh1, hh2, hhlen⟩ := hsh (ty, re, rp) (List.mem_cons_self _ _)
    calc countOcc g (maskStrong rest (reSub re rp.toList m,
            rs ++ phiReasonsOf ty (reFindAll re m))).1
        ≤ countOcc g (reSub re rp.toList m) :=
          maskStrong_countOcc_le g hg hgl hgr rest
            (fun e he => hsh e (List.mem_cons_of_mem _ he)) _ _
      _ ≤ countOcc g m := by
          unfold reSub
          exact subScan_countOcc_le re g rp.toList rp0 rp1 hg hgl hgr hh1 hh2 hhlen
            _ none m

/-- `_mask_phi` never increases the number of occurrences of the
emergency guidance string. -/
theorem mask_phi_countOcc_le (t : List Char) :
    countOcc EMERGENCY_GUIDANCE.toList (mask_phi t).1 ≤
      countOcc EMERGENCY_GUIDANCE.toList t := by
  have hg : EMERGENCY_GUIDANCE.toList ≠ [] := by decide
  have hgl : '[' ∉ EMERGENCY_GUIDANCE.toList := by decide
  have hgr : ']' ∉ EMERGENCY_GUIDANCE.toList := by decide
  have hsh : ∀ e ∈ PHI_PATTERNS_STRONG, ∃ rp1 rp0,
      e.2.2.toList = '[' :: rp1 ∧ e.2.2.toList = rp0 ++ [']'] ∧
      e.2.2.toList.length ≤ EMERGENCY_GUIDANCE.toList.length := by
    intro e he
    simp only [PHI_PATTERNS_STRONG, List.mem_cons, List.not_mem_nil, or_false] at he
    rcases he with rfl | rfl | rfl | rfl | rfl | rfl | rfl <;>
      exact placeholder_shape _ _ (by decide) (by decide) (by decide)
  have hstrong := maskStrong_countOcc_le EMERGENCY_GUIDANCE.toList hg hgl hgr
    PHI_PATTERNS_STRONG hsh t []
  unfold mask_phi
  simp only []
  split
  · have hname : countOcc EMERGENCY_GUIDANCE.toList
        (reSub nameRE "[PHI_NAME]".toList (maskStrong PHI_PATTERNS_STRONG (t, [])).1) ≤
        countOcc EMERGENCY_GUIDANCE.toList (maskStrong PHI_PATTERNS_STRONG (t, [])).1 := by
      unfold reSub
      exact subScan_countOcc_le nameRE EMERGENCY_GUIDANCE.toList
        "[PHI_NAME]".toList "[PHI_NAME".toList "PHI_NAME]".toList
        hg hgl hgr (by decide) (by decide) (by decide) _ none _
    exact le_trans hname hstrong
  · exact hstrong

/-- With an emergency match, the guard's masked text is the PHI-masked
text with the guidance appended. -/
theorem guard_text_masked_of_emergency {text : String}
    (hem : (matchFirst EMERGENCY_PATTERNS text.toList).isSome = true) :
    (guard_text text).masked_text.toList =
      append_guidance (mask_phi text.toList).1 EMERGENCY_GUIDANCE.toList := by
  unfold guard_text
  simp only [hem, if_true]
  rfl

/-- With no emergency match, the guard's masked text is just the
PHI-masked text. -/
theorem guard_text_masked_of_no_emergency {text : String}
    (hem : (matchFirst EMERGENCY_PATTERNS text.toList).isSome = false) :
    (guard_text text).masked_text.toList = (mask_phi text.toList).1 := by
  unfold guard_text
  simp only [hem, Bool.false_eq_true, if_false]
  rfl

/-! ## C3 -/

/-- C3 counterexample: a text that already contains the guidance twice
(and matches an emergency pattern, no diagnosis/prescription) keeps both
copies, so the guidance occurs twice, not exactly once. -/
theorem c3_counterexample :
    (matchFirst EMERGENCY_PATTERNS guideTwice.toList).isSome = true ∧
    matchFirst DIAGNOSIS_PATTERNS guideTwice.toList = none ∧
    matchFirst PRESCRIPTION_PATTERNS guideTwice.toList = none ∧
    countOcc EMERGENCY_GUIDANCE.toList
      (guard_text guideTwice).masked_text.toList = 2 :=
  ⟨by decide, by decide, by decide, by decide⟩

/-- C3 amended: for every text matching an emergency pattern, matching no
diagnosis or prescription pattern, and **not already containing the
guidance string**: the guard allows the text, adds the
`add_emergency_guidance` action, the guidance occurs exactly once in the
masked text, and re-applying the guard to that masked text does not
produce a second copy. -/
theorem c3_guidance_once (text : String)
    (hem : (matchFirst EMERGENCY_PATTERNS text.toList).isSome = true)
    (hd : matchFirst DIAGNOSIS_PATTERNS text.toList = none)
    (hp : matchFirst PRESCRIPTION_PATTERNS text.toList = none)
    (hfree : listContains EMERGENCY_GUIDANCE.toList text.toList = false) :
    (guard_text text).allowed = true ∧
    "add_emergency_guidance" ∈ (guard_text text).actions ∧
    countOcc EMERGENCY_GUIDANCE.toList (guard_text text).masked_text.toList = 1 ∧
    countOcc EMERGENCY_GUIDANCE.toList
      (guard_text (guard_text text).masked_text).masked_text.toList ≤ 1 := by
  have hgne : EMERGENCY_GUIDANCE.toList ≠ [] := by decide
  have hnl : '\n' ∉ EMERGENCY_GUIDANCE.toList := by decide
  have h0 : countOcc EMERGENCY_GUIDANCE.toList text.toList = 0 :=
    (countOcc_eq_zero_iff _ hgne _).mpr hfree
  have hm0 : countOcc EMERGENCY_GUIDANCE.toList (mask_phi text.toList).1 = 0 :=
    Nat.le_zero.mp (h0 ▸ mask_phi_countOcc_le text.toList)
  have hone : countOcc EMERGENCY_GUIDANCE.toList (guard_text text).masked_text.toList = 1 := by
    rw [guard_text_masked_of_emergency hem]
    exact append_guidance_count_one hgne hnl hm0
  refine ⟨?_, ?_, hone, ?_⟩
  · by_cases hmp : (mask_phi text.toList).2.isEmpty = true <;>
      simp_all [guard_text]
  · by_cases hmp : (mask_phi text.toList).2.isEmpty = true <;>
      simp_all [guard_text]
  · have hmle : countOcc EMERGENCY_GUIDANCE.toList
        (mask_phi (guard_text text).masked_text.toList).1 ≤ 1 :=
      le_trans (mask_phi_countOcc_le _) (le_of_eq hone)
    cases hem2 : (matchFirst EMERGENCY_PATTERNS
        (guard_text text).masked_text.toList).isSome with
    | true =>
      rw [guard_text_masked_of_emergency hem2]
      exact append_guidance_le_one hgne hnl hmle
    | false =>
      rw [guard_text_masked_of_no_emergency hem2]
      exact hmle

/-- Witness for C3's amended statement on a concrete emergency text. -/
theorem c3_guidance_witness :
    ((matchFirst EMERGENCY_PATTERNS "I have severe chest pain.".toList).isSome = true ∧
     matchFirst DIAGNOSIS_PATTERNS "I have severe chest pain.".toList = none ∧
     matchFirst PRESCRIPTION_PATTERNS "I have severe chest pain.".toList = none ∧
     listContains EMERGENCY_GUIDANCE.toList "I have severe chest pain.".toList = false) ∧
    ((guard_text "I have severe chest pain.").allowed = true ∧
     countOcc EMERGENCY_GUIDANCE.toList
       (guard_text "I have severe chest pain.").masked_text.toList = 1) :=
  ⟨⟨by decide, by decide, by decide, by decide⟩,
   ⟨(c3_guidance_once "I have severe chest pain." (by decide) (by decide) (by decide)
       (by decide)).1,
    (c3_guidance_once "I have severe chest pain." (by decide) (by decide) (by decide)
       (by decide)).2.2.1⟩⟩

/-- Witness for C6's amended statement on a too-short raw text. -/
theorem c6_intake_witness :
    ((stripL "hi".toList).length < 10 ∨ 5000 < (stripL "hi".toList).length) ∧
    (∃ e tr, pipePlain.run "hi" {} none 3 "id" "uid" "ts" = .error (.intake e, tr) ∧
      tr.errors = [⟨"intake", "IntakeValidationError", e.message⟩] ∧
      tr.intake = none ∧ tr.structured = none ∧ tr.report = none ∧
      tr.success = false ∧ tr.rag.used = false ∧ tr.rag.chunks = []) :=
  ⟨Or.inl (by decide),
   c6_intake_length_fails Unit Unit pipePlain "hi" {} none 3 "id" "uid" "ts"
     (Or.inl (by decide))⟩

/-! ## Placeholder-survival machinery for C8 -/

theorem plusLoop_mustOut (f : Option Char → List Char → List (List Char × List Char))
    (hf : ∀ p s mr, mr ∈ f p s → ∃ c ∈ mr.1, interiorChars.contains c = false) :
    ∀ (fuel : Nat) (p : Option Char) (s : List Char) (mr : List Char × List Char),
      mr ∈ plusLoop f fuel p s → ∃ c ∈ mr.1, interiorChars.contains c = false
  | 0, p, s, mr, h => by simp [plusLoop] at h
  | fuel + 1, p, s, mr, h => by
    simp only [plusLoop] at h
    rcases List.mem_flatMap.mp h with ⟨mq, hmq, h2⟩
    obtain ⟨c, hcm, hcbad⟩ := hf p s mq hmq
    have hne : ¬mq.1.isEmpty = true := by
      intro he
      rw [List.isEmpty_iff.mp he] at hcm
      simp at hcm
    rw [if_neg hne] at h2
    rcases List.mem_append.mp h2 with h2 | h2
    · rcases List.mem_map.mp h2 with ⟨nq, hnq, heq⟩
      subst heq
      exact ⟨c, List.mem_append_left _ hcm, hcbad⟩
    · have heq : mr = mq := List.mem_singleton.mp h2
      rw [heq]
      exact ⟨c, hcm, hcbad⟩

theorem ccAvoids_not_interior {cc : CC} {c : Char} (ha : ccAvoids cc = true)
    (hs : ccSat cc c = true) : interiorChars.contains c = false := by
  by_cases hmem : interiorChars.contains c = true
  · have := List.all_eq_true.mp ha c (by simpa using hmem)
    rw [hs] at this
    simp at this
  · simpa using hmem

/-- Soundness of `mustOut`: every match consumes a char outside the
placeholder interior. -/
theorem mustOut_sound : ∀ (re : RE), mustOut re = true →
    ∀ (p : Option Char) (s : List Char) (mr : List Char × List Char),
      mr ∈ mtch re p s → ∃ c ∈ mr.1, interiorChars.contains c = false
  | .eps, h, _, _, _, _ => by simp [mustOut] at h
  | .bound, h, _, _, _, _ => by simp [mustOut] at h
  | .ch cc, h, p, [], mr, hm => by simp [mtch] at hm
  | .ch cc, h, p, c :: rest, mr, hm => by
    by_cases hc : ccSat cc c = true
    · have heq : mr = ([c], rest) := List.mem_singleton.mp (by simpa [mtch, hc] using hm)
      rw [heq]
      exact ⟨c, by simp, ccAvoids_not_interior (by simpa [mustOut] using h) hc⟩
    · simp [mtch, hc] at hm
  | .cat a b, h, p, s, mr, hm => by
    simp only [mtch] at hm
    rcases List.mem_flatMap.mp hm with ⟨mq, hmq, h2⟩
    rcases List.mem_map.mp h2 with ⟨nq, hnq, heq⟩
    subst heq
    simp only [mustOut, Bool.or_eq_true] at h
    rcases h with h | h
    · obtain ⟨c, hcm, hcb⟩ := mustOut_sound a h p s mq hmq
      exact ⟨c, List.mem_append_left _ hcm, hcb⟩
    · obtain ⟨c, hcm, hcb⟩ := mustOut_sound b h (prevAfter p mq.1) mq.2 nq hnq
      exact ⟨c, List.mem_append_right _ hcm, hcb⟩
  | .alt a b, h, p, s, mr, hm => by
    simp only [mtch] at hm
    simp only [mustOut, Bool.and_eq_true] at h
    rcases List.mem_append.mp hm with hm | hm
    · exact mustOut_sound a h.1 p s mr hm
    · exact mustOut_sound b h.2 p s mr hm
  | .rep cc lo hi, h, p, s, mr, hm => by
    simp only [mustOut, Bool.and_eq_true, decide_eq_true_eq] at h
    have h' : (mr.1, mr.2) ∈ repSplits cc lo hi s := by simpa [mtch] using hm
    obtain ⟨happ, hchars, hlo⟩ := repSplits_spec h'
    cases hm1 : mr.1 with
    | nil => rw [hm1] at hlo; simp at hlo; omega
    | cons c t =>
      have hc1 : c ∈ mr.1 := by simp [hm1]
      exact ⟨c, List.mem_cons_self c t, ccAvoids_not_interior h.2 (hchars c hc1)⟩
  | .grpPlus r, h, p, s, mr, hm => by
    have h' : mustOut r = true := by simpa [mustOut] using h
    exact plusLoop_mustOut (mtch r) (fun p' s' mq hq => mustOut_sound r h' p' s' mq hq)
      (s.length + 1) p s mr (by simpa [mtch] using hm)

/-- Splitting an equation `m ++ r = a ++ c :: rest` when `c ∉ m`: the
match `m` must stop inside `a`. -/
theorem append_cases {c : Char} : ∀ {m : List Char} (r a rest : List Char),
    m ++ r = a ++ c :: rest → c ∉ m →
    ∃ a2, a = m ++ a2 ∧ r = a2 ++ c :: rest
  | [], r, a, rest, h, _ => ⟨a, rfl, by simpa using h⟩
  | x :: m', r, a, rest, h, hm => by
    cases a with
    | nil =>
      simp only [List.nil_append, List.cons_append, List.cons.injEq] at h
      exact absurd (h.1 ▸ List.mem_cons_self x m') hm
    | cons y a' =>
      simp only [List.cons_append, List.cons.injEq] at h
      obtain ⟨a2, ha, hr⟩ := append_cases r a' rest h.2
        (fun hmem => hm (List.mem_cons_of_mem x hmem))
      exact ⟨a2, by rw [h.1, ha]; rfl, hr⟩

/-- No match can start at a character the pattern cannot consume. -/
theorem mtch_head_blocked (pat : RE) (hnn : nullable pat = false) {c : Char}
    (hbr : reCharOK pat c = false) (p : Option Char) (b : List Char) :
    mtch pat p (c :: b) = [] := by
  apply List.eq_nil_iff_forall_not_mem.mpr
  intro mr hmr
  have hne := mtch_ne_nil pat hnn p (c :: b) mr hmr
  have happ := mtch_append pat p (c :: b) mr hmr
  have hch := mtch_chars pat p (c :: b) mr hmr
  cases hm1 : mr.1 with
  | nil => exact hne hm1
  | cons x xs =>
    rw [hm1] at happ
    simp only [List.cons_append, List.cons.injEq] at happ
    have hx := hch x (by rw [hm1]; simp)
    rw [happ.1, hbr] at hx
    simp at hx

/-- No match can start on the placeholder interior `PHI_SSN]`: matches
cannot cross the `']'` and must consume a non-interior character. -/
theorem mtch_interior_blocked (pat : RE)
    (hbr : reCharOK pat ']' = false) (hmo : mustOut pat = true)
    (p : Option Char) (b : List Char) :
    mtch pat p ("PHI_SSN".toList ++ ']' :: b) = [] := by
  apply List.eq_nil_iff_forall_not_mem.mpr
  intro mr hmr
  have happ := mtch_append pat p _ mr hmr
  have hch := mtch_chars pat p _ mr hmr
  have hbm : ']' ∉ mr.1 := by
    intro hmem
    have := hch ']' hmem
    rw [hbr] at this
    simp at this
  obtain ⟨a2, ha, _⟩ := append_cases mr.2 "PHI_SSN".toList b happ hbm
  obtain ⟨c, hcm, hcb⟩ := mustOut_sound pat hmo p _ mr hmr
  have hcmem : c ∈ interiorChars := by
    have : c ∈ "PHI_SSN".toList := ha ▸ List.mem_append_left a2 hcm
    simpa [interiorChars] using this
  have hct : interiorChars.contains c = true := by
    simpa using List.elem_eq_true_of_mem hcmem
  rw [hct] at hcb
  simp at hcb

/-- A `\b`-anchored pattern fails wherever there is no word boundary. -/
theorem mtch_bound_head_fail {r' : RE} {p : Option Char} {c : Char} {rest : List Char}
    (h : isBoundary p (c :: rest) = false) :
    mtch (RE.cat RE.bound r') p (c :: rest) = [] := by
  simp [mtch, h]

/-- Scanning from the final `']'` of the placeholder keeps it. -/
theorem tailWalkZ (pat : RE) (rp : List Char) (hnn : nullable pat = false)
    (hbrR : reCharOK pat ']' = false) :
    ∀ (fuel : Nat) (p : Option Char) (b : List Char),
      ∃ t, subScan pat rp fuel p (']' :: b) = ']' :: t
  | 0, _, b => ⟨b, rfl⟩
  | fuel + 1, p, b => by
    have hm := mtch_head_blocked pat hnn hbrR p b
    rw [subScan_cons_none (by rw [hm]; rfl)]
    exact ⟨subScan pat rp fuel (some ']') b, rfl⟩

/-- Scanning from position 7 of the placeholder (`N]`) keeps it. -/
theorem tailWalk7 (pat : RE) (rp : List Char) (hnn : nullable pat = false)
    (hbrR : reCharOK pat ']' = false) (hpat : ∃ r', pat = RE.cat RE.bound r') :
    ∀ (fuel : Nat) (b : List Char),
      ∃ t, subScan pat rp fuel (some 'S') ('N' :: ']' :: b) = 'N' :: ']' :: t
  | 0, b => ⟨b, rfl⟩
  | fuel + 1, b => by
    obtain ⟨r', rfl⟩ := hpat
    have hm : mtch (RE.cat RE.bound r') (some 'S') ('N' :: ']' :: b) = [] :=
      mtch_bound_head_fail (by rfl)
    rw [subScan_cons_none (by rw [hm]; rfl)]
    obtain ⟨t, ht⟩ := tailWalkZ (RE.cat RE.bound r') rp hnn hbrR fuel (some 'N') b
    exact ⟨t, by rw [ht]⟩

/-- Scanning from position 6 of the placeholder (`SN]`) keeps it. -/
theorem tailWalk6 (pat : RE) (rp : List Char) (hnn : nullable pat = false)
    (hbrR : reCharOK pat ']' = false) (hpat : ∃ r', pat = RE.cat RE.bound r') :
    ∀ (fuel : Nat) (b : List Char),
      ∃ t, subScan pat rp fuel (some 'S') ('S' :: 'N' :: ']' :: b) = 'S' :: 'N' :: ']' :: t
  | 0, b => ⟨b, rfl⟩
  | fuel + 1, b => by
    obtain ⟨r', rfl⟩ := hpat
    have hm : mtch (RE.cat RE.bound r') (some 'S') ('S' :: 'N' :: ']' :: b) = [] :=
      mtch_bound_head_fail (by rfl)
    rw [subScan_cons_none (by rw [hm]; rfl)]
    obtain ⟨t, ht⟩ := tailWalk7 (RE.cat RE.bound r') rp hnn hbrR ⟨r', rfl⟩ fuel b
    exact ⟨t, by rw [ht]⟩

/-- Scanning from position 5 of the placeholder (`SSN]`) keeps it. -/
theorem tailWalk5 (pat : RE) (rp : List Char) (hnn : nullable pat = false)
    (hbrR : reCharOK pat ']' = false) (hpat : ∃ r', pat = RE.cat RE.bound r') :
    ∀ (fuel : Nat) (b : List Char),
      ∃ t, subScan pat rp fuel (some '_') ('S' :: 'S' :: 'N' :: ']' :: b) =
        'S' :: 'S' :: 'N' :: ']' :: t
  | 0, b => ⟨b, rfl⟩
  | fuel + 1, b => by
    obtain ⟨r', rfl⟩ := hpat
    have hm : mtch (RE.cat RE.bound r') (some '_') ('S' :: 'S' :: 'N' :: ']' :: b) = [] :=
      mtch_bound_head_fail (by rfl)
    rw [subScan_cons_none (by rw [hm]; rfl)]
    obtain ⟨t, ht⟩ := tailWalk6 (RE.cat RE.bound r') rp hnn hbrR ⟨r', rfl⟩ fuel b
    exact ⟨t, by rw [ht]⟩

/-- Scanning from position 4 of the placeholder (`_SSN]`) keeps it. -/
theorem tailWalk4 (pat : RE) (rp : List Char) (hnn : nullable pat = false)
    (hbrR : reCharOK pat ']' = false) (hpat : ∃ r', pat = RE.cat RE.bound r') :
    ∀ (fuel : Nat) (b : List Char),
      ∃ t, subScan pat rp fuel (some 'I') ('_' :: 'S' :: 'S' :: 'N' :: ']' :: b) =
        '_' :: 'S' :: 'S' :: 'N' :: ']' :: t
  | 0, b => ⟨b, rfl⟩
  | fuel + 1, b => by
    obtain ⟨r', rfl⟩ := hpat
    have hm : mtch (RE.cat RE.bound r') (some 'I')
        ('_' :: 'S' :: 'S' :: 'N' :: ']' :: b) = [] :=
      mtch_bound_head_fail (by rfl)
    rw [subScan_cons_none (by rw [hm]; rfl)]
    obtain ⟨t, ht⟩ := tailWalk5 (RE.cat RE.bound r') rp hnn hbrR ⟨r', rfl⟩ fuel b
    exact ⟨t, by rw [ht]⟩

/-- Scanning from position 3 of the placeholder (`I_SSN]`) keeps it. -/
theorem tailWalk3 (pat : RE) (rp : List Char) (hnn : nullable pat = false)
    (hbrR : reCharOK pat ']' = false) (hpat : ∃ r', pat = RE.cat RE.bound r') :
    ∀ (fuel : Nat) (b : List Char),
      ∃ t, subScan pat rp fuel (some 'H') ('I' :: '_' :: 'S' :: 'S' :: 'N' :: ']' :: b) =
        'I' :: '_' :: 'S' :: 'S' :: 'N' :: ']' :: t
  | 0, b => ⟨b, rfl⟩
  | fuel + 1, b => by
    obtain ⟨r', rfl⟩ := hpat
    have hm : mtch (RE.cat RE.bound r') (some 'H')
        ('I' :: '_' :: 'S' :: 'S' :: 'N' :: ']' :: b) = [] :=
      mtch_bound_head_fail (by rfl)
    rw [subScan_cons_none (by rw [hm]; rfl)]
    obtain ⟨t, ht⟩ := tailWalk4 (RE.cat RE.bound r') rp hnn hbrR ⟨r', rfl⟩ fuel b
    exact ⟨t, by rw [ht]⟩

/-- Scanning from position 2 of the placeholder (`HI_SSN]`) keeps it. -/
theorem tailWalk2 (pat : RE) (rp : List Char) (hnn : nullable pat = false)
    (hbrR : reCharOK pat ']' = false) (hpat : ∃ r', pat = RE.cat RE.bound r') :
    ∀ (fuel : Nat) (b : List Char),
      ∃ t, subScan pat rp fuel (some 'P')
          ('H' :: 'I' :: '_' :: 'S' :: 'S' :: 'N' :: ']' :: b) =
        'H' :: 'I' :: '_' :: 'S' :: 'S' :: 'N' :: ']' :: t
  | 0, b => ⟨b, rfl⟩
  | fuel + 1, b => by
    obtain ⟨r', rfl⟩ := hpat
    have hm : mtch (RE.cat RE.bound r') (some 'P')
        ('H' :: 'I' :: '_' :: 'S' :: 'S' :: 'N' :: ']' :: b) = [] :=
      mtch_bound_head_fail (by rfl)
    rw [subScan_cons_none (by rw [hm]; rfl)]
    obtain ⟨t, ht⟩ := tailWalk3 (RE.cat RE.bound r') rp hnn hbrR ⟨r', rfl⟩ fuel b
    exact ⟨t, by rw [ht]⟩

/-- Scanning from position 1 of the placeholder (`PHI_SSN]`) keeps it. -/
theorem tailWalk1 (pat : RE) (rp : List Char) (hnn : nullable pat = false)
    (hbrR : reCharOK pat ']' = false) (hmo : mustOut pat = true)
    (hpat : ∃ r', pat = RE.cat RE.bound r') :
    ∀ (fuel : Nat) (p : Option Char) (b : List Char),
      ∃ t, subScan pat rp fuel p
          ('P' :: 'H' :: 'I' :: '_' :: 'S' :: 'S' :: 'N' :: ']' :: b) =
        'P' :: 'H' :: 'I' :: '_' :: 'S' :: 'S' :: 'N' :: ']' :: t
  | 0, _, b => ⟨b, rfl⟩
  | fuel + 1, p, b => by
    have hm : mtch pat p ('P' :: 'H' :: 'I' :: '_' :: 'S' :: 'S' :: 'N' :: ']' :: b) = [] :=
      mtch_interior_blocked pat hbrR hmo p b
    rw [subScan_cons_none (by rw [hm]; rfl)]
    obtain ⟨t, ht⟩ := tailWalk2 pat rp hnn hbrR hpat fuel b
    exact ⟨t, by rw [ht]⟩

/-- The placeholder survives one substitution pass of any pattern that is
`\b`-anchored, non-nullable, cannot consume brackets, and must consume a
non-interior character. -/
theorem subScan_survive (pat : RE) (rp : List Char) (hnn : nullable pat = false)
    (hbrL : reCharOK pat '[' = false) (hbrR : reCharOK pat ']' = false)
    (hmo : mustOut pat = true) (hpat : ∃ r', pat = RE.cat RE.bound r') :
    ∀ (fuel : Nat) (p : Option Char) (a b : List Char),
      ∃ a2 b2, subScan pat rp fuel p
          (a ++ '[' :: 'P' :: 'H' :: 'I' :: '_' :: 'S' :: 'S' :: 'N' :: ']' :: b) =
        a2 ++ '[' :: 'P' :: 'H' :: 'I' :: '_' :: 'S' :: 'S' :: 'N' :: ']' :: b2
  | 0, p, a, b => ⟨a, b, rfl⟩
  | fuel + 1, p, a, b => by
    cases a with
    | nil =>
      have hm := mtch_head_blocked pat hnn hbrL p
        ('P' :: 'H' :: 'I' :: '_' :: 'S' :: 'S' :: 'N' :: ']' :: b)
      rw [List.nil_append, subScan_cons_none (by rw [hm]; rfl)]
      obtain ⟨t, ht⟩ := tailWalk1 pat rp hnn hbrR hmo hpat fuel (some '[') b
      exact ⟨[], t, by rw [ht]; rfl⟩
    | cons c a' =>
      rw [List.cons_append]
      cases hh : (mtch pat p (c :: (a' ++
          '[' :: 'P' :: 'H' :: 'I' :: '_' :: 'S' :: 'S' :: 'N' :: ']' :: b))).head? with
      | none =>
        rw [subScan_cons_none hh]
        obtain ⟨a2, b2, hrec⟩ := subScan_survive pat rp hnn hbrL hbrR hmo hpat
          fuel (some c) a' b
        exact ⟨c :: a2, b2, by rw [hrec]; rfl⟩
      | some mr =>
        have hmem : mr ∈ mtch pat p (c :: (a' ++
            '[' :: 'P' :: 'H' :: 'I' :: '_' :: 'S' :: 'S' :: 'N' :: ']' :: b)) :=
          List.mem_of_mem_head? (by simp [hh])
        have hne := mtch_ne_nil pat hnn _ _ mr hmem
        by_cases he : mr.1.isEmpty = true
        · exact absurd (List.isEmpty_iff.mp he) hne
        · rw [subScan_cons_some hh he]
          have happ := mtch_append pat _ _ mr hmem
          have hch := mtch_chars pat _ _ mr hmem
          have hbm : '[' ∉ mr.1 := by
            intro hmem'
            have := hch '[' hmem'
            rw [hbrL] at this
            simp at this
          obtain ⟨a2, ha2, hr2⟩ := append_cases mr.2 (c :: a')
            ('P' :: 'H' :: 'I' :: '_' :: 'S' :: 'S' :: 'N' :: ']' :: b)
            (by simpa using happ) hbm
          obtain ⟨a3, b3, hrec⟩ := subScan_survive pat rp hnn hbrL hbrR hmo hpat
            fuel (prevAfter p mr.1) a2 b
          refine ⟨rp ++ a3, b3, ?_⟩
          rw [hr2, hrec]
          simp

/-- When the pattern is found somewhere, one substitution pass inserts the
replacement string. -/
theorem subScan_hit (re : RE) (rp : List Char) (hnn : nullable re = false) :
    ∀ (fuel : Nat) (p : Option Char) (s : List Char),
      searchAux re fuel p s = true →
      ∃ a b, subScan re rp fuel p s = a ++ rp ++ b
  | 0, p, s, h => by simp [searchAux] at h
  | fuel + 1, p, s, h => by
    cases hm : mtch re p s with
    | nil =>
      have he : (mtch re p s).isEmpty = true := by rw [hm]; rfl
      cases s with
      | nil => simp [searchAux, he] at h
      | cons c rest =>
        simp only [searchAux, he, if_true] at h
        obtain ⟨a, b, hab⟩ := subScan_hit re rp hnn fuel (some c) rest h
        have hh : (mtch re p (c :: rest)).head? = none := by rw [hm]; rfl
        rw [subScan_cons_none hh]
        exact ⟨c :: a, b, by rw [hab]; simp⟩
    | cons mr tl =>
      have hmem : mr ∈ mtch re p s := by rw [hm]; exact List.mem_cons_self _ _
      cases s with
      | nil =>
        have hap := mtch_append re p [] mr hmem
        exact absurd (List.append_eq_nil.mp hap).1 (mtch_ne_nil re hnn p [] mr hmem)
      | cons c rest =>
        have hh : (mtch re p (c :: rest)).head? = some mr := by rw [hm]; rfl
        have hne := mtch_ne_nil re hnn p (c :: rest) mr hmem
        have hemp : ¬ mr.1.isEmpty = true := by
          simpa [List.isEmpty_iff] using hne
        rw [subScan_cons_some hh hemp]
        exact ⟨[], subScan re rp fuel (prevAfter p mr.1) mr.2, rfl⟩

/-- The SSN pass of `_mask_phi` inserts the `[PHI_SSN]` placeholder whenever
the anchored SSN pattern is found. -/
theorem reSub_ssn_hasPH (text : List Char) (h : reSearch ssnRE text = true) :
    hasPH (reSub ssnRE "[PHI_SSN]".toList text) := by
  obtain ⟨a, b, hab⟩ := subScan_hit ssnRE "[PHI_SSN]".toList (by decide)
    (text.length + 1) none text h
  refine ⟨a, b, ?_⟩
  show subScan ssnRE "[PHI_SSN]".toList (text.length + 1) none text = _
  rw [hab]
  have hlit : "[PHI_SSN]".toList =
      ['[', 'P', 'H', 'I', '_', 'S', 'S', 'N', ']'] := rfl
  rw [hlit]
  simp

/-- A later pass whose pattern is `\b`-anchored, non-nullable, bracket-free
and forced outside the placeholder interior preserves the placeholder. -/
theorem reSub_preserve (pat : RE) (rp2 : List Char) (hnn : nullable pat = false)
    (hbrL : reCharOK pat '[' = false) (hbrR : reCharOK pat ']' = false)
    (hmo : mustOut pat = true) (hpat : ∃ r', pat = RE.cat RE.bound r')
    {s : List Char} (h : hasPH s) : hasPH (reSub pat rp2 s) := by
  obtain ⟨a, b, rfl⟩ := h
  obtain ⟨a2, b2, h2⟩ := subScan_survive pat rp2 hnn hbrL hbrR hmo hpat
    ((a ++ '[' :: 'P' :: 'H' :: 'I' :: '_' :: 'S' :: 'S' :: 'N' :: ']' :: b).length + 1)
    none a b
  exact ⟨a2, b2, h2⟩

/-- The full strong-pattern loop of `_mask_phi` leaves a `[PHI_SSN]`
placeholder in the masked text whenever the SSN pattern is found. -/
theorem maskStrong_ssn (text : List Char) (rs : List GuardReason)
    (h : reSearch ssnRE text = true) :
    hasPH (maskStrong PHI_PATTERNS_STRONG (text, rs)).1 := by
  have h1 := reSub_ssn_hasPH text h
  simp only [PHI_PATTERNS_STRONG, maskStrong]
  exact reSub_preserve idRE _ (by decide) (by decide) (by decide) (by decide) ⟨_, rfl⟩
    (reSub_preserve zipRE _ (by decide) (by decide) (by decide) (by decide) ⟨_, rfl⟩
      (reSub_preserve date2RE _ (by decide) (by decide) (by decide) (by decide) ⟨_, rfl⟩
        (reSub_preserve date1RE _ (by decide) (by decide) (by decide) (by decide) ⟨_, rfl⟩
          (reSub_preserve phoneRE _ (by decide) (by decide) (by decide) (by decide) ⟨_, rfl⟩
            (reSub_preserve emailRE _ (by decide) (by decide) (by decide) (by decide) ⟨_, rfl⟩
              h1)))))

/-- `_mask_phi` (including the contextual name pass) leaves a `[PHI_SSN]`
placeholder whenever the SSN pattern is found in the input. -/
theorem mask_phi_ssn (text : List Char) (h : reSearch ssnRE text = true) :
    hasPH (mask_phi text).1 := by
  have hm := maskStrong_ssn text [] h
  unfold mask_phi
  simp only []
  split
  · exact reSub_preserve nameRE _ (by decide) (by decide) (by decide) (by decide) ⟨_, rfl⟩ hm
  · exact hm

theorem listContains_cons_of {n : List Char} (c : Char) {t : List Char}
    (h : listContains n t = true) : listContains n (c :: t) = true := by
  simp [listContains, h]

theorem listContains_append_left {n s : List Char} :
    ∀ (a : List Char), listContains n s = true → listContains n (a ++ s) = true
  | [], h => h
  | c :: a', h => listContains_cons_of c (listContains_append_left a' h)

theorem isPrefixOf_append_self : ∀ (n b : List Char), n.isPrefixOf (n ++ b) = true
  | [], _ => by simp [List.isPrefixOf]
  | c :: t, b => by simp [List.isPrefixOf, isPrefixOf_append_self t b]

theorem listContains_self_append (n b : List Char) (hn : n ≠ []) :
    listContains n (n ++ b) = true := by
  cases n with
  | nil => exact absurd rfl hn
  | cons c t =>
    rw [List.cons_append, listContains]
    have hp : (c :: t).isPrefixOf (c :: (t ++ b)) = true := isPrefixOf_append_self (c :: t) b
    simp [hp]

/-- Dropping leading whitespace stops at the first non-whitespace char. -/
theorem dropWhile_ws_append {c : Char} (hc : wsChar c = false) (r : List Char) :
    ∀ (l : List Char),
      List.dropWhile wsChar (l ++ c :: r) = List.dropWhile wsChar l ++ c :: r
  | [] => by simp [List.dropWhile_cons, hc]
  | x :: l' => by
    by_cases hx : wsChar x = true
    · simp [List.dropWhile_cons, hx, dropWhile_ws_append hc r l']
    · simp [List.dropWhile_cons, hx]

/-- `rstrip` cannot remove the placeholder: its last char `]` is not
whitespace. -/
theorem rstripL_hasPH {s : List Char} (h : hasPH s) : hasPH (rstripL s) := by
  obtain ⟨a, b, rfl⟩ := h
  refine ⟨a, (List.dropWhile wsChar b.reverse).reverse, ?_⟩
  unfold rstripL
  rw [show (a ++ '[' :: 'P' :: 'H' :: 'I' :: '_' :: 'S' :: 'S' :: 'N' :: ']' :: b).reverse
      = b.reverse ++ ']' :: ('N' :: 'S' :: 'S' :: '_' :: 'I' :: 'H' :: 'P' :: '[' :: a.reverse)
      from by simp,
    dropWhile_ws_append (by decide) _ b.reverse]
  simp

/-- `append_guidance` preserves the placeholder. -/
theorem append_guidance_hasPH {t g : List Char} (h : hasPH t) :
    hasPH (append_guidance t g) := by
  unfold append_guidance
  simp only []
  split
  · exact rstripL_hasPH h
  · obtain ⟨a, b, hab⟩ := rstripL_hasPH h
    exact ⟨a, b ++ ('\n' :: '\n' :: g), by rw [hab]; simp⟩

theorem listContains_hasPH {s : List Char} (h : hasPH s) :
    listContains "[PHI_SSN]".toList s = true := by
  obtain ⟨a, b, rfl⟩ := h
  apply listContains_append_left
  show listContains "[PHI_SSN]".toList ("[PHI_SSN]".toList ++ b) = true
  exact listContains_self_append _ _ (by decide)

/-- C8 counterexample: `"a123-45-6789"` contains a substring of the SSN-like
shape `\d{3}-\d{2}-\d{4}` (claim C8's parenthetical reading), yet the code's
pattern is `\b`-anchored, so `guard_text` masks nothing: `masked_text`
contains no `[PHI_SSN]` placeholder and still contains the digit sequence
`123-45-6789`, refuting both halves of C8. -/
theorem c8_counterexample :
    reSearch ssnLoose "a123-45-6789".toList = true ∧
    listContains "[PHI_SSN]".toList (guard_text "a123-45-6789").masked_text.toList = false ∧
    listContains "123-45-6789".toList (guard_text "a123-45-6789").masked_text.toList = true := by
  decide

/-- C8 (amended): for every text on which the code's anchored SSN pattern
`\b\d{3}-\d{2}-\d{4}\b` finds a match, the masked text of `guard_text`
contains the placeholder `[PHI_SSN]` — the SSN pass inserts it and every
later masking pass, the `rstrip` inside `append_guidance`, and the guidance
append itself all preserve it. -/
theorem c8_ssn_masked (text : String)
    (h : reSearch ssnRE text.toList = true) :
    listContains "[PHI_SSN]".toList (guard_text text).masked_text.toList = true := by
  have hph : hasPH (mask_phi text.toList).1 := mask_phi_ssn text.toList h
  cases hem : (matchFirst EMERGENCY_PATTERNS text.toList).isSome with
  | true =>
    rw [guard_text_masked_of_emergency hem]
    exact listContains_hasPH (append_guidance_hasPH hph)
  | false =>
    rw [guard_text_masked_of_no_emergency hem]
    exact listContains_hasPH hph

/-- C8 witness: `"My SSN is 123-45-6789."` is matched by the anchored SSN
pattern, and the guard's masked text contains `[PHI_SSN]`. -/
theorem c8_ssn_witness :
    reSearch ssnRE "My SSN is 123-45-6789.".toList = true ∧
    listContains "[PHI_SSN]".toList
      (guard_text "My SSN is 123-45-6789.").masked_text.toList = true :=
  ⟨by decide, c8_ssn_masked "My SSN is 123-45-6789." (by decide)⟩

end Healthcare
